import Mathlib

/-!
Verification development for the cron package (`src/cron.go`).

The Go source is shallowly embedded:

* An instant (`time.Time`, `time.Local`, second granularity) is modelled as the
  number of seconds since 0001-01-01 00:00:00 (an `Int`); the zero value
  `time.Time{}` is `0`.  Nanoseconds are 0 throughout (all times the resolver
  builds have nanosecond 0) and `time.Local` is modelled as a fixed offset, so
  adding a `time.Duration` is plain addition of seconds.
* `time.Date` with its normalisation of out-of-range months/days/hours, the
  component accessors (`Year`, `Month`, `Day`, `Hour`, `Minute`, `Second`,
  `Weekday`), `AddDate` and `Add` are modelled with the standard proleptic
  Gregorian civil-from-days / days-from-civil conversions, which is exactly the
  calendar Go's `time` package implements.
* `uint` arithmetic is modelled on `Int`; every value reached from a valid
  instant (year at or after 1) and a successfully parsed trigger is
  non-negative, so no wrap-around occurs on these inputs.
-/

/-- The zero `time.Time{}` returned by `trigger.next` on depth exhaustion.
An instant is a plain `Int`: seconds since 0001-01-01 00:00:00 local time
(using an abbreviation for instants would hide the integer order from the
arithmetic tactics, so signatures spell out `Int`). -/
def zeroTime : Int := 0

/-- Days since 1970-01-01 of a civil date (proleptic Gregorian); the standard
civil-calendar conversion, valid for month inputs in [1,12] and any day
(the day enters linearly, exactly as in Go's `time.Date`). -/
def daysFromCivil (y m d : Int) : Int :=
  let yAdj := if m ≤ 2 then y - 1 else y
  let era := yAdj / 400
  let yoe := yAdj - era * 400
  let mp := if 2 < m then m - 3 else m + 9
  let doy := (153 * mp + 2) / 5 + d - 1
  let doe := yoe * 365 + yoe / 4 - yoe / 100 + doy
  era * 146097 + doe - 719468

/-- Days since 0001-01-01 of a civil date. -/
def dateToDays (y m d : Int) : Int := daysFromCivil y m d + 719162

/-- Second stage of the day-count-to-civil conversion: decode a day-of-era
`doe` (in [0, 146096]) within the 400-year era `era` into (year, month, day). -/
def civilOfEraDoe (era doe : Int) : Int × Int × Int :=
  let yoe := (doe - doe / 1460 + doe / 36524 - doe / 146096) / 365
  let y := yoe + era * 400
  let doy := doe - (365 * yoe + yoe / 4 - yoe / 100)
  let mp := (5 * doy + 2) / 153
  let d := doy - (153 * mp + 2) / 5 + 1
  let m := if mp < 10 then mp + 3 else mp - 9
  (if m ≤ 2 then y + 1 else y, m, d)

/-- Civil date (year, month, day) of a day count since 0001-01-01; inverse of
`dateToDays` (standard civil-calendar conversion). -/
def civilFromDays (z0 : Int) : Int × Int × Int :=
  let z := z0 + 306
  let era := z / 146097
  let doe := z - era * 146097
  civilOfEraDoe era doe

/-- Go `time.Date(y, mo, d, hh, mi, ss, 0, time.Local)`: normalises the month
into [1,12] (floored), then adds days and seconds linearly — out-of-range
days/hours/minutes/seconds overflow into the coarser unit exactly as in Go. -/
def goDate (y mo d hh mi ss : Int) : Int :=
  let m0 := mo - 1
  let y' := y + m0 / 12
  let m' := m0 % 12 + 1
  86400 * dateToDays y' m' d + 3600 * hh + 60 * mi + ss

/-- Day count of an instant. -/
def goDays (t : Int) : Int := t / 86400

/-- Seconds elapsed in the day of an instant. -/
def goSecsOfDay (t : Int) : Int := t % 86400

/-- Go `t.Year()`. -/
def goYear (t : Int) : Int := (civilFromDays (goDays t)).1

/-- Go `int(t.Month())`. -/
def goMonth (t : Int) : Int := (civilFromDays (goDays t)).2.1

/-- Go `t.Day()`. -/
def goDay (t : Int) : Int := (civilFromDays (goDays t)).2.2

/-- Go `t.Hour()`. -/
def goHour (t : Int) : Int := goSecsOfDay t / 3600

/-- Go `t.Minute()`. -/
def goMin (t : Int) : Int := (goSecsOfDay t / 60) % 60

/-- Go `t.Second()`. -/
def goSec (t : Int) : Int := goSecsOfDay t % 60

/-- Go `int(t.Weekday())`: Sunday = 0.  Day 0 (0001-01-01) was a Monday. -/
def goWeekday (t : Int) : Int := (goDays t + 1) % 7

/-- Go `t.AddDate(years, months, days)` =
`Date(Year+years, Month+months, Day+days, Hour, Minute, Second, ...)`. -/
def goAddDate (t : Int) (years months days : Int) : Int :=
  goDate (goYear t + years) (goMonth t + months) (goDay t + days)
    (goHour t) (goMin t) (goSec t)

/-! ## Constants and alias tables (`cron.go` lines 44-86) -/

/-- Go constant `maxDeep = 10`: the recursion-depth guard of `trigger.next`. -/
def maxDeep : Nat := 10

def secField : String := "sec"

def minField : String := "min"

def hourField : String := "hour"

def dayField : String := "day"

def monField : String := "mon"

def weekField : String := "week"

/-- The `ranges` map: per-field (min, max) domain bounds. -/
def ranges (name : String) : Int × Int :=
  if name = secField then (0, 59)
  else if name = minField then (0, 59)
  else if name = hourField then (0, 23)
  else if name = dayField then (1, 31)
  else if name = monField then (1, 12)
  else if name = weekField then (0, 6)
  else (0, 0)

/-- The `monsAlias` map (`JAN`..`DEC`). -/
def monsAlias (s : String) : Option Int :=
  if s = "JAN" then some 1 else if s = "FEB" then some 2
  else if s = "MAR" then some 3 else if s = "APR" then some 4
  else if s = "MAY" then some 5 else if s = "JUN" then some 6
  else if s = "JUL" then some 7 else if s = "AUG" then some 8
  else if s = "SEP" then some 9 else if s = "OCT" then some 10
  else if s = "NOV" then some 11 else if s = "DEC" then some 12
  else none

/-- The `weekAlias` map (`SUN`..`SAT`). -/
def weekAlias (s : String) : Option Int :=
  if s = "SUN" then some 0 else if s = "MON" then some 1
  else if s = "TUE" then some 2 else if s = "WED" then some 3
  else if s = "THU" then some 4 else if s = "FRI" then some 5
  else if s = "SAT" then some 6
  else none

/-! ## Data model (`cron.go` lines 97-114)

A `Computed` day/week rule is a Go closure that, when evaluated for a
(year, month), rewrites `t.day.start` in place and reports success.  The
closures are modelled by the `CalcRule` datatype plus the pure evaluator
`CalcRule.eval`, which returns the day value the closure writes into
`t.day.start` (`none` when the closure returns `false`; `trigger.next` reads
`t.day.start` only after a successful evaluation, so this captures the
reachable behaviour exactly). -/

/-- The five `calculate` closures installed by the parser:
day `L`, day `LW`, day `NW`, week `NL` (and bare `L`, which is `6L`),
and week `N#M`. -/
inductive CalcRule where
  | dayL : CalcRule
  | dayLW : CalcRule
  | dayNW (n : Int) : CalcRule
  | weekNL (weekNum : Int) : CalcRule
  | weekHash (weekNum weekDay : Int) : CalcRule
deriving DecidableEq, Repr

/-- Go struct `field`.  Go's `end` is a Lean keyword and is renamed `endv`;
defaults are Go's zero values. -/
structure field where
  name : String := ""
  isRange : Bool := false
  start : Int := 0
  endv : Int := 0
  increment : Int := 0
  values : List Int := []
  calculate : Option CalcRule := none
deriving DecidableEq, Repr

/-- Go struct `trigger`: the original expression plus the six parsed fields. -/
structure trigger where
  cron : String := ""
  sec : field := {}
  min : field := {}
  hour : field := {}
  day : field := {}
  mon : field := {}
  week : field := {}
deriving DecidableEq, Repr

/-! ## Calendar helpers (`cron.go` lines 694-746)

The Go loops walk one day at a time via `AddDate(0, 0, ±1)`; each loop has a
small a-priori iteration bound (backing out of a weekend takes at most 2
steps, finding a weekday at most 7, scanning a month at most 31), so they are
modelled by structurally recursive functions with exactly that much fuel. -/

/-- `getYearMonthDays` (lines 694-707): the Go switch over the month with the
4/100/400 leap rule in the February branch. -/
def getYearMonthDays (year month : Int) : Int :=
  if month = 1 ∨ month = 3 ∨ month = 5 ∨ month = 7 ∨ month = 8 ∨ month = 10 ∨ month = 12 then 31
  else if month = 4 ∨ month = 6 ∨ month = 9 ∨ month = 11 then 30
  else if (year % 4 = 0 ∧ year % 100 ≠ 0) ∨ year % 400 = 0 then 29
  else 28

/-- The loop of `getLatestWorkDay`: step back one day while the weekday is
Sunday (0) or Saturday (6); at most 2 steps are ever taken. -/
def backOutOfWeekend (t : Int) : Nat → Int
  | 0 => t
  | fuel + 1 =>
    if goWeekday t = 0 ∨ goWeekday t = 6 then backOutOfWeekend (goAddDate t 0 0 (-1)) fuel
    else t

/-- `getLatestWorkDay` (lines 708-717): latest weekday at or before
(year, month, day); `none` when stepping back left the month (Go returns nil). -/
def getLatestWorkDay (year month day : Int) : Option Int :=
  let t := backOutOfWeekend (goDate year month day 0 0 0) 2
  if goMonth t ≠ month then none else some t

/-- The loop of `getMonthLatestWeek`: step back one day until the weekday is
`weekDay`; at most 6 steps for a weekday in [0,6] (Go's loop has no bound and
diverges for other values, which the parser never produces). -/
def backToWeekday (weekDay : Int) (t : Int) : Nat → Int
  | 0 => t
  | fuel + 1 =>
    if goWeekday t = weekDay then t else backToWeekday weekDay (goAddDate t 0 0 (-1)) fuel

/-- `getMonthLatestWeek` (lines 718-725): the last `weekDay` of the month. -/
def getMonthLatestWeek (year month weekDay : Int) : Int :=
  backToWeekday weekDay (goDate year month (getYearMonthDays year month) 0 0 0) 7

/-- The loop of `getMonthAfterLatestWeek`: step forward one day until the
weekday is `weekDay`; at most 6 steps for a weekday in [0,6]. -/
def forwardToWeekday (weekDay : Int) (t : Int) : Nat → Int
  | 0 => t
  | fuel + 1 =>
    if goWeekday t = weekDay then t else forwardToWeekday weekDay (goAddDate t 0 0 1) fuel

/-- `getMonthAfterLatestWeek` (lines 726-732): the first `weekDay` on or after
(year, month, day). -/
def getMonthAfterLatestWeek (year month day weekDay : Int) : Int :=
  forwardToWeekday weekDay (goDate year month day 0 0 0) 7

/-- The loop of `getMonthWeekByWeekNumDay`: walk the days of the month counting
occurrences of `weekDay`; a month has at most 31 days. -/
def weekNumScan (month weekNum weekDay : Int) (t : Int) (count : Int) : Nat → Option Int
  | 0 => none
  | fuel + 1 =>
    if goMonth t = month then
      if goWeekday t = weekDay then
        if count + 1 = weekNum then some t
        else weekNumScan month weekNum weekDay (goAddDate t 0 0 1) (count + 1) fuel
      else weekNumScan month weekNum weekDay (goAddDate t 0 0 1) count fuel
    else none

/-- `getMonthWeekByWeekNumDay` (lines 733-746): the `weekNum`-th `weekDay` of
the month, `none` (Go nil) when it does not exist. -/
def getMonthWeekByWeekNumDay (year month weekNum weekDay : Int) : Option Int :=
  weekNumScan month weekNum weekDay (goDate year month 1 0 0 0) 0 32

/-- Evaluation of a `Computed` rule for (year, month): the day value the Go
closure stores into `t.day.start`, or `none` when the closure returns `false`
(`cron.go` lines 380-410 and 500-553). -/
def CalcRule.eval : CalcRule → Int → Int → Option Int
  | .dayL, year, month => some (getYearMonthDays year month)
  | .dayLW, year, month =>
      -- the closure calls getLatestWorkDay on the last day of the month and
      -- dereferences the result; backing out of a weekend never leaves the
      -- month there, so the lookup always succeeds
      (getLatestWorkDay year month (getYearMonthDays year month)).map goDay
  | .dayNW n, year, month => (getLatestWorkDay year month n).map goDay
  | .weekNL weekNum, year, month => some (goDay (getMonthLatestWeek year month weekNum))
  | .weekHash weekNum weekDay, year, month =>
      (getMonthWeekByWeekNumDay year month weekNum weekDay).map goDay

/-! ## Matching-value search (`cron.go` lines 649-692) -/

/-- The loop of `getRangeNextValue`: first `i` in `[i, endv]` with
`nowValue ≤ i` (fuel covers the whole interval). -/
def rangeScanFrom (i endv nowValue : Int) : Nat → Option Int
  | 0 => none
  | fuel + 1 =>
    if i ≤ endv then
      if nowValue ≤ i then some i else rangeScanFrom (i + 1) endv nowValue fuel
    else none

/-- `getRangeNextValue` (lines 649-659): smallest value of `[start, endv]` that
is `≥ nowValue`; `(start, false)` when there is none. -/
def getRangeNextValue (start endv nowValue : Int) : Int × Bool :=
  match rangeScanFrom start endv nowValue (endv + 1 - start).toNat with
  | some v => (v, true)
  | none => (start, false)

/-- `getIncreaseNextValue` (lines 660-669): first listed value `≥ nowValue`;
`(values[0], false)` when there is none (Go panics on an empty slice; parsed
fields always have a non-empty `values`, the `0` default is unreachable). -/
def getIncreaseNextValue (values : List Int) (nowValue : Int) : Int × Bool :=
  match values.find? (fun v => nowValue ≤ v) with
  | some v => (v, true)
  | none => (values.headD 0, false)

/-- The loop of `getRangeDayNextValue`: first `i` in `[i, endv]` with
`day ≤ i` whose date in (year, nextMonth) falls on `nextWeekDay`. -/
def dayScanFrom (i endv year nextMonth day nextWeekDay : Int) : Nat → Int
  | 0 => 0
  | fuel + 1 =>
    if i ≤ endv then
      if day ≤ i ∧ goWeekday (goDate year nextMonth i 0 0 0) = nextWeekDay then i
      else dayScanFrom (i + 1) endv year nextMonth day nextWeekDay fuel
    else 0

/-- `getRangeDayNextValue` (lines 671-681): first day of `[start, endv]` at or
after `day` falling on `nextWeekDay` in (year, nextMonth); `0` when none. -/
def getRangeDayNextValue (start endv year nextMonth day nextWeekDay : Int) : Int :=
  dayScanFrom start endv year nextMonth day nextWeekDay (endv + 1 - start).toNat

/-- `getIncreaseDayNextValue` (lines 682-692): first listed day at or after
`day` falling on `nextWeekDay` in (year, nextMonth); `0` when none. -/
def getIncreaseDayNextValue (values : List Int) (year nextMonth day nextWeekDay : Int) : Int :=
  match values.find?
      (fun i => day ≤ i ∧ goWeekday (goDate year nextMonth i 0 0 0) = nextWeekDay) with
  | some i => i
  | none => 0

/-! ## Next-fire-time resolver (`cron.go` lines 123-240)

Go's `next` takes an optional `deeps ...uint8` depth argument: a call at depth
`deep` returns the zero time when `deep > maxDeep` and otherwise passes
`deep + 1` to its carry calls, so one resolution runs invocations at depths
0, 1, ..., and the first invocation at depth `maxDeep + 1` returns the zero
time without doing any work — at most `maxDeep + 1` invocations do work.  The
recursion is therefore modelled with the fuel counter
`fuel = maxDeep + 1 - deep` (the number of working invocations still
allowed): fuel `0` is `deep > maxDeep`, and the top-level call (no `deeps`
argument, depth 0) has fuel `maxDeep + 1`. -/

/-- Lines 160-197: determine `nextDay` (`.ok`) or the carried instant that the
next recursive call receives (`.error`).  `year .. sec` are the components of
`now`; `nextYear`/`nextMonth` are the resolved year and month. -/
def resolveDay (tr : trigger) (now : Int)
    (year month weekDay day hour min sec nextYear nextMonth : Int) : Except Int Int :=
  if tr.week.calculate.isSome ∨ tr.day.calculate.isSome then
    -- lines 161-173: a Computed week or day rule
    let r : Option Int :=
      match tr.week.calculate with
      | some rule => rule.eval nextYear nextMonth
      | none =>
        match tr.day.calculate with
        | some rule => rule.eval nextYear nextMonth
        | none => none
    match r with
    | some nextDay =>
      -- line 171: `!isFind || Date(nextYear, nextMonth, nextDay, hour, min, sec).Before(now)`
      if goDate nextYear nextMonth nextDay hour min sec < now then
        .error (goAddDate (goDate nextYear nextMonth 1 0 0 0) 0 1 0)
      else .ok nextDay
    | none => .error (goAddDate (goDate nextYear nextMonth 1 0 0 0) 0 1 0)
  else
    -- lines 174-197: resolve the weekday, then scan for a matching day
    let startWeekDay := if nextYear = year ∧ nextMonth = month then weekDay else 0
    let startDay := if nextYear = year ∧ nextMonth = month then day else 1
    let wd :=
      if tr.week.isRange then getRangeNextValue tr.week.start tr.week.endv startWeekDay
      else getIncreaseNextValue tr.week.values startWeekDay
    if wd.2 = false then
      .error (getMonthAfterLatestWeek nextYear nextMonth startDay wd.1)
    else
      .ok (if tr.day.isRange then
             getRangeDayNextValue tr.day.start tr.day.endv nextYear nextMonth startDay wd.1
           else getIncreaseDayNextValue tr.day.values nextYear nextMonth startDay wd.1)

/-- Lines 199-239: the hour/minute/second cascade.  `.error` is the carried
instant handed to the next recursive call, `.ok` the final resolved instant
`Date(nextYear, nextMonth, nextDay, nextHour, nextMin, nextSec)`. -/
def resolveHMS (tr : trigger)
    (year month day hour min sec nextYear nextMonth nextDay : Int) : Except Int Int :=
  let startHour :=
    if nextYear = year ∧ nextMonth = month ∧ nextDay = day then hour else 0
  let hh :=
    if tr.hour.isRange then getRangeNextValue tr.hour.start tr.hour.endv startHour
    else getIncreaseNextValue tr.hour.values startHour
  if hh.2 = false then
    .error (goDate nextYear nextMonth nextDay hh.1 0 0 + 24 * 3600)
  else
    let startMin :=
      if nextYear = year ∧ nextMonth = month ∧ nextDay = day ∧ hh.1 = hour then min else 0
    let mm :=
      if tr.min.isRange then getRangeNextValue tr.min.start tr.min.endv startMin
      else getIncreaseNextValue tr.min.values startMin
    if mm.2 = false then
      .error (goDate nextYear nextMonth nextDay hh.1 mm.1 0 + 3600)
    else
      let startSec :=
        if nextYear = year ∧ nextMonth = month ∧ nextDay = day ∧ hh.1 = hour ∧ mm.1 = min
        then sec else 0
      let ss :=
        if tr.sec.isRange then getRangeNextValue tr.sec.start tr.sec.endv startSec
        else getIncreaseNextValue tr.sec.values startSec
      if ss.2 = false then
        .error (goDate nextYear nextMonth nextDay hh.1 mm.1 ss.1 + 60)
      else
        .ok (goDate nextYear nextMonth nextDay hh.1 mm.1 ss.1)

/-- `trigger.next` (lines 124-240) with the depth counter expressed as fuel
(see the section comment): fuel 0 is the exceeded depth guard and returns the
zero time; otherwise resolve month, then day, then hour/minute/second,
recursing on the carried instant when a unit has no match. -/
def trigger.nextAux (tr : trigger) : Nat → Int → Int
  | 0, _ => zeroTime
  | fuel + 1, now =>
    let year := goYear now
    let month := goMonth now
    let weekDay := goWeekday now
    let day := goDay now
    let hour := goHour now
    let min := goMin now
    let sec := goSec now
    -- lines 150-159: month (nextYear starts as the current year and is
    -- incremented only in the not-found branch)
    let mo :=
      if tr.mon.isRange then getRangeNextValue tr.mon.start tr.mon.endv month
      else getIncreaseNextValue tr.mon.values month
    if mo.2 = false then
      tr.nextAux fuel (goDate (year + 1) mo.1 1 0 0 0)
    else
      match resolveDay tr now year month weekDay day hour min sec year mo.1 with
      | .error carried => tr.nextAux fuel carried
      | .ok nextDay =>
        match resolveHMS tr year month day hour min sec year mo.1 nextDay with
        | .error carried => tr.nextAux fuel carried
        | .ok result => result

/-- `trigger.next` called without a `deeps` argument (depth 0). -/
def trigger.next (tr : trigger) (now : Int) : Int :=
  tr.nextAux (maxDeep + 1) now

/-! ## Expression parser (`cron.go` lines 242-647)

Error messages are abbreviated (no formatting); only which inputs error
matters.  The `str` parameter Go threads through for messages is dropped. -/

/-- Go `strings.Split(s, sep)` for a one-character separator, written as
structural recursion over the character list (the library `String.splitOn`
is defined by well-founded recursion, which the kernel cannot evaluate). -/
def splitOnCharAux (sep : Char) : List Char → List Char → List String
  | [], acc => [String.mk acc.reverse]
  | c :: rest, acc =>
    if c = sep then String.mk acc.reverse :: splitOnCharAux sep rest []
    else splitOnCharAux sep rest (c :: acc)

/-- Go `strings.Split(s, string(sep))`. -/
def splitOnChar (sep : Char) (s : String) : List String :=
  splitOnCharAux sep s.data []

/-- Go `strings.IndexByte(s, c) > -1`. -/
def containsChar (c : Char) (s : String) : Bool :=
  s.data.any (fun x => x = c)

/-- Go `s[:strings.IndexByte(s, c)]`: the prefix before the first `c`. -/
def takeBefore (c : Char) (s : String) : String :=
  String.mk (s.data.takeWhile (fun x => x ≠ c))

/-- The character list after the first `c` (everything past it, further
occurrences of `c` included). -/
def afterChar (c : Char) : List Char → List Char
  | [] => []
  | x :: xs => if x = c then xs else afterChar c xs

/-- Go `s[strings.IndexByte(s, c)+1:]`: the suffix after the first `c`. -/
def takeAfter (c : Char) (s : String) : String :=
  String.mk (afterChar c s.data)

/-- Go `strconv.ParseUint(s, 10, 8)`: value and success flag.  On a syntax
error (empty or non-digit input) Go returns value 0, on a range error (a
number above 255) it returns the bit-size maximum 255 — both with a non-nil
error, modelled as `false`. -/
def parseUint8 (s : String) : Int × Bool :=
  if s.data.length = 0 then (0, false)
  else if ¬ (s.data.all Char.isDigit) then (0, false)
  else
    let n : Nat := s.data.foldl (fun a c => a * 10 + (c.toNat - 48)) 0
    if n ≤ 255 then ((n : Int), true) else (255, false)

/-- The recurring pattern
`x, err := strconv.ParseUint(v, 10, 8); if err != nil && checkAlias(str, v, f, &x) != nil { return err }`
(`cron.go` lines 242-262 and its call sites): `none` when Go returns the
error; otherwise `some` of the resulting numeric value.  `checkAlias`'s switch
handles only the week and month fields — for every other field name it
returns nil without touching the value, so a failed numeric parse is silently
kept (0 for a syntax error, 255 for a range error). -/
def parseBoundValue (fname s : String) : Option Int :=
  let p := parseUint8 s
  if p.2 then some p.1
  else if fname = weekField then weekAlias s
  else if fname = monField then monsAlias s
  else some p.1

/-- `trigger.parserRangeField` (lines 263-288): parse `[arr[0], arr[1]]` as an
inclusive range with per-field bounds and the start ≤ end check. -/
def parserRangeField (fname : String) (arr : List String) : Except String field :=
  let mn := (ranges fname).1
  let mx := (ranges fname).2
  match parseBoundValue fname (arr.getD 0 "") with
  | none => .error (fname ++ " start is not a positive integer or alias")
  | some st =>
    if st < mn ∨ mx < st then .error (fname ++ " range out of bounds")
    else
      match parseBoundValue fname (arr.getD 1 "") with
      | none => .error (fname ++ " end is not a positive integer or alias")
      | some en =>
        if en < mn ∨ mx < en then .error (fname ++ " range out of bounds")
        else if en < st then .error (fname ++ " start should not be greater than end")
        else .ok { name := fname, isRange := true, start := st, endv := en }

/-- The value-list loop of `parserIncreaseField`:
`for i := start; i <= end; i += increment`. -/
def stepValues (i endv inc : Int) : Nat → List Int
  | 0 => []
  | fuel + 1 => if i ≤ endv then i :: stepValues (i + inc) endv inc fuel else []

/-- `trigger.parserIncreaseField` (lines 289-327): parse `arr[0]/arr[1]` as a
step expression; the end of the produced value list is always the domain
maximum. -/
def parserIncreaseField (fname : String) (arr : List String) : Except String field :=
  let mn := (ranges fname).1
  let mx := (ranges fname).2
  let pstart :=
    if arr.getD 0 "" = "*" then Except.ok mn
    else
      let p := parseUint8 (arr.getD 0 "")
      if ¬ p.2 then Except.error (fname ++ " start is not a positive integer")
      else if p.1 < mn ∨ mx < p.1 then Except.error (fname ++ " range out of bounds")
      else Except.ok p.1
  match pstart with
  | .error e => .error e
  | .ok start =>
    let p := parseUint8 (arr.getD 1 "")
    if ¬ p.2 then .error (fname ++ " increment is not a positive integer")
    else if p.1 = 0 then .error (fname ++ " increment should be > 0")
    else if p.1 < mn ∨ mx < p.1 then .error (fname ++ " range out of bounds")
    else
      .ok { name := fname, start := start, endv := mx, increment := p.1,
            values := stepValues start mx p.1 (mx + 1 - start).toNat }

/-- Insert into a sorted list (ascending). -/
def insertSorted (x : Int) : List Int → List Int
  | [] => [x]
  | y :: ys => if x ≤ y then x :: y :: ys else y :: insertSorted x ys

/-- Ascending insertion sort; models the `sort.Slice` call of
`parserEnumField`. -/
def sortInts (l : List Int) : List Int := l.foldr insertSorted []

/-- The element loop of `parserEnumField`: parse and bounds-check every listed
value. -/
def parseEnumValues (fname : String) (arr : List String) : Except String (List Int) :=
  match arr with
  | [] => .ok []
  | s :: rest =>
    match parseBoundValue fname s with
    | none => .error (fname ++ " value is not a positive integer or alias")
    | some v =>
      if v < (ranges fname).1 ∨ (ranges fname).2 < v then
        .error (fname ++ " range out of bounds")
      else
        match parseEnumValues fname rest with
        | .error e => .error e
        | .ok vs => .ok (v :: vs)

/-- `trigger.parserEnumField` (lines 328-353): explicit value list, sorted
ascending after parsing. -/
def parserEnumField (fname : String) (arr : List String) : Except String field :=
  match parseEnumValues fname arr with
  | .error e => .error e
  | .ok vs => .ok { name := fname, values := sortInts vs }

/-- `trigger.parserDayField` (lines 355-421).  Note the `NW` branch: Go
discards the `ParseUint` error of the part before `W`, so a non-numeric `N` is
accepted at parse time (the stored rule then never matches). -/
def parserDayField (s : String) : Except String field :=
  if s = "*" ∨ s = "?" then
    .ok { name := dayField, isRange := true, start := 1, endv := 31 }
  else if containsChar '-' s then parserRangeField dayField (splitOnChar '-' s)
  else if containsChar '/' s then parserIncreaseField dayField (splitOnChar '/' s)
  else if containsChar ',' s then parserEnumField dayField (splitOnChar ',' s)
  else if s = "L" then .ok { name := dayField, calculate := some .dayL }
  else if s = "LW" then .ok { name := dayField, calculate := some .dayLW }
  else if containsChar 'W' s then
    -- `day, _ := strconv.ParseUint(s[:index], 10, 8)` — error discarded
    .ok { name := dayField,
          calculate := some (.dayNW (parseUint8 (takeBefore 'W' s)).1) }
  else
    -- `day, _ := strconv.ParseUint(s, 10, 8)` — error discarded, bounds kept
    let p := parseUint8 s
    if p.1 < 1 ∨ 31 < p.1 then .error "day field should be in [1,31]"
    else .ok { name := dayField, isRange := true, start := p.1, endv := p.1 }

/-- `trigger.parserMonField` (lines 423-469). -/
def parserMonField (s : String) : Except String field :=
  if s = "*" then .ok { name := monField, isRange := true, start := 1, endv := 12 }
  else if containsChar '-' s then parserRangeField monField (splitOnChar '-' s)
  else if containsChar '/' s then parserIncreaseField monField (splitOnChar '/' s)
  else if containsChar ',' s then parserEnumField monField (splitOnChar ',' s)
  else
    let p := parseUint8 s
    if ¬ p.2 then
      match monsAlias s with
      | none => .error "month field should be in [1,12] or JAN-DEC"
      | some aliasV => .ok { name := monField, isRange := true, start := aliasV, endv := aliasV }
    else if p.1 < 1 ∨ 12 < p.1 then .error "month field should be in [1,12]"
    else .ok { name := monField, isRange := true, start := p.1, endv := p.1 }

/-- `trigger.parserWeekField` (lines 471-576).  `arr` is the split of the full
expression (Go re-splits `t.cron`); a specific week field demands `arr[3]`
(the day token) be `*` or `?`.  The wildcard branch builds a `field` without a
name, exactly as the Go literal does. -/
def parserWeekField (arr : List String) (s : String) : Except String field :=
  if s = "*" ∨ s = "?" then .ok { isRange := true, start := 0, endv := 6 }
  else if arr.getD 3 "" ≠ "*" ∧ arr.getD 3 "" ≠ "?" then
    .error "day field must be * or ? when the week is specific"
  else if containsChar '-' s then parserRangeField weekField (splitOnChar '-' s)
  else if containsChar '/' s then parserIncreaseField weekField (splitOnChar '/' s)
  else if containsChar ',' s then parserEnumField weekField (splitOnChar ',' s)
  else if containsChar 'L' s then
    if s = "L" then .ok { name := weekField, calculate := some (.weekNL 6) }
    else
      let p := parseUint8 (takeBefore 'L' s)
      if ¬ p.2 then .error "week: left of L should be a positive integer"
      else if 6 < p.1 then .error "week: left of L should be in [0,6]"
      else .ok { name := weekField, calculate := some (.weekNL p.1) }
  else if containsChar '#' s then
    let pd := parseUint8 (takeBefore '#' s)
    if ¬ pd.2 then .error "week: weekDay should be a positive integer"
    else if 6 < pd.1 then .error "week: weekDay should be in [0,6]"
    else
      -- Go parses `s[index+1:]` — everything after the first `#`
      let pn := parseUint8 (takeAfter '#' s)
      if ¬ pn.2 then .error "week: weekNum should be a positive integer"
      else if pn.1 < 1 ∨ 4 < pn.1 then .error "week: weekNum should be in [1,4]"
      else .ok { name := weekField, calculate := some (.weekHash pn.1 pd.1) }
  else
    let p := parseUint8 s
    if ¬ p.2 then
      match weekAlias s with
      | none => .error "week field should be [0,6] or SUN-SAT"
      | some aliasV => .ok { name := weekField, isRange := true, start := aliasV, endv := aliasV }
    else if 6 < p.1 then .error "week field should be in [0,6]"
    else .ok { name := weekField, isRange := true, start := p.1, endv := p.1 }

/-- The shared second/minute/hour branch of `trigger.parse` (lines 583-630).
Note the single-value branch checks `start < 0 || start > 59` for all three
fields — the hour bound 23 is not applied there. -/
def parseSMH (name : String) (str : String) : Except String field :=
  if str = "*" then
    .ok { name := name, isRange := true, start := 0, endv := (ranges name).2 }
  else if containsChar '-' str then parserRangeField name (splitOnChar '-' str)
  else if containsChar '/' str then parserIncreaseField name (splitOnChar '/' str)
  else if containsChar ',' str then parserEnumField name (splitOnChar ',' str)
  else
    let p := parseUint8 str
    if ¬ p.2 then .error (name ++ " is not a positive integer")
    else if p.1 < 0 ∨ 59 < p.1 then .error (name ++ " range should be [0,59]")
    else .ok { name := name, isRange := true, start := p.1, endv := p.1 }

/-- `trigger.parse` (lines 578-647): split into exactly six fields, then parse
second, minute, hour, day, month, week in order (first error wins). -/
def trigger.parse (cron : String) : Except String trigger :=
  let arr := splitOnChar ' ' cron
  if arr.length ≠ 6 then .error "cronExpression fields count is not 6"
  else
    match parseSMH secField (arr.getD 0 "") with
    | .error e => .error e
    | .ok fsec =>
      match parseSMH minField (arr.getD 1 "") with
      | .error e => .error e
      | .ok fmin =>
        match parseSMH hourField (arr.getD 2 "") with
        | .error e => .error e
        | .ok fhour =>
          match parserDayField (arr.getD 3 "") with
          | .error e => .error e
          | .ok fday =>
            match parserMonField (arr.getD 4 "") with
            | .error e => .error e
            | .ok fmon =>
              match parserWeekField arr (arr.getD 5 "") with
              | .error e => .error e
              | .ok fweek =>
                .ok { cron := cron, sec := fsec, min := fmin, hour := fhour,
                      day := fday, mon := fmon, week := fweek }

/-- `newTrigger` (lines 116-121): `new(trigger)` + `parse`. -/
def newTrigger (cronExpression : String) : Except String trigger :=
  trigger.parse cronExpression

/-! ## Job (`cron.go` lines 748-783)

The callback `fun`, the `running` flag and the panic-recovery wrapper execute
opaque caller code and are out of scope of the state model; a job here is its
id, its trigger, and the cached next fire time (`nextTime`, a nullable
pointer in Go). -/

/-- Go struct `job` (callback omitted). -/
structure job where
  id : Int := 0
  t : trigger := {}
  nextTime : Option Int := none
deriving DecidableEq, Repr

/-- `newJob` (lines 756-765): parse the expression and cache the first fire
time computed from `now` (Go uses `time.Now()`; the instant is passed in). -/
def newJob (cronExpression : String) (now : Int) : Except String job :=
  match newTrigger cronExpression with
  | .error e => .error e
  | .ok tr => .ok { t := tr, nextTime := some (tr.next now) }

/-- `job.next` (lines 766-772): return the cached time when it is non-nil and
strictly after `t`; otherwise recompute through the trigger and store it.
Returns the updated job and the returned time. -/
def job.next (j : job) (t : Int) : job × Int :=
  match j.nextTime with
  | some nt =>
    if t < nt then (j, nt)
    else
      let nt' := j.t.next t
      ({ j with nextTime := some nt' }, nt')
  | none =>
    let nt' := j.t.next t
    ({ j with nextTime := some nt' }, nt')

/-! ## Scheduler (`cron.go` lines 785-929)

The timer, mutex, channels, wait group and the goroutines (`run`,
`watchJobAdding`, `runJob`) are the concurrent machinery; the state model
keeps the data they protect: the id→job map, the ordered job slice, the id
counter and the two flags.  `jobMap` is an association list with unique keys,
written exactly like a Go `map` (assignment replaces an existing key,
`delete` removes it). -/

/-- Go `map[uint]*job` assignment `m[k] = v`: replace, or append when absent. -/
def mapSet (m : List (Int × job)) (k : Int) (v : job) : List (Int × job) :=
  match m with
  | [] => [(k, v)]
  | (k', v') :: rest => if k' = k then (k, v) :: rest else (k', v') :: mapSet rest k v

/-- Go `delete(m, k)`. -/
def mapDelete (m : List (Int × job)) (k : Int) : List (Int × job) :=
  match m with
  | [] => []
  | (k', v') :: rest => if k' = k then rest else (k', v') :: mapDelete rest k

/-- Go struct `Scheduler` (data fields only, see the section comment). -/
structure Scheduler where
  jobMap : List (Int × job) := []
  jobs : List job := []
  id : Int := 0
  running : Bool := false
  runState : Bool := false
deriving DecidableEq, Repr

/-- `New` (lines 798-804): empty scheduler. -/
def Scheduler.New : Scheduler := {}

/-- `Scheduler.AddJob` (lines 805-820): build the job (returning `(0, err)`
and leaving the state untouched on failure), assign the next id, append to the
slice and insert into the map.  Result: (new state, returned id, error). -/
def Scheduler.AddJob (c : Scheduler) (cronExpression : String) (now : Int) :
    Scheduler × Int × Option String :=
  match newJob cronExpression now with
  | .error e => (c, 0, some e)
  | .ok j0 =>
    let newId := c.id + 1
    let j := { j0 with id := newId }
    ({ c with id := newId,
              jobs := c.jobs ++ [j],
              jobMap := mapSet c.jobMap newId j },
     newId, none)

/-- The index scan of `Scheduler.Remove`:
`for i = 0; i < len(jobs); i++ { if jobs[i].id == id break }` — first index
with that id, or the length when absent. -/
def jobFindIdx (jobs : List job) (id : Int) : Nat :=
  match jobs with
  | [] => 0
  | j :: rest => if j.id = id then 0 else jobFindIdx rest id + 1

/-- `Scheduler.Remove` (lines 821-842): no-op for an unknown id; otherwise
delete from the map, and either clear a single-element slice (also resetting
`runState` and signalling stop) or splice the job out of the slice
(`append(jobs[:i], jobs[i+1:]...)`; when the id is in the map but not the
slice Go panics on the slice bounds — unreachable from reachable states). -/
def Scheduler.Remove (c : Scheduler) (id : Int) : Scheduler :=
  if (c.jobMap.lookup id).isNone then c
  else
    let c' := { c with jobMap := mapDelete c.jobMap id }
    if c'.jobs.length = 1 then { c' with runState := false, jobs := [] }
    else
      let i := jobFindIdx c'.jobs id
      { c' with jobs := c'.jobs.take i ++ c'.jobs.drop (i + 1) }

/-! ## Concrete parsed triggers used in the claim instances -/

/-- The trigger Go produces for `"0 0 0 31 * ?"` (midnight of every 31st). -/
def t31 : trigger :=
  { cron := "0 0 0 31 * ?",
    sec := { name := secField, isRange := true, start := 0, endv := 0 },
    min := { name := minField, isRange := true, start := 0, endv := 0 },
    hour := { name := hourField, isRange := true, start := 0, endv := 0 },
    day := { name := dayField, isRange := true, start := 31, endv := 31 },
    mon := { name := monField, isRange := true, start := 1, endv := 12 },
    week := { isRange := true, start := 0, endv := 6 } }

/-- The trigger Go produces for `"0 0 23 L * ?"` (23:00 of the last day of
every month). -/
def febL : trigger :=
  { cron := "0 0 23 L * ?",
    sec := { name := secField, isRange := true, start := 0, endv := 0 },
    min := { name := minField, isRange := true, start := 0, endv := 0 },
    hour := { name := hourField, isRange := true, start := 23, endv := 23 },
    day := { name := dayField, calculate := some .dayL },
    mon := { name := monField, isRange := true, start := 1, endv := 12 },
    week := { isRange := true, start := 0, endv := 6 } }

/-- The trigger Go produces for `"x-5 * * * * ?"`: the non-numeric bound `x`
of the seconds range is silently accepted as 0 (`checkAlias` ignores the
seconds field), yielding the range 0-5. -/
def xTrig : trigger :=
  { cron := "x-5 * * * * ?",
    sec := { name := secField, isRange := true, start := 0, endv := 5 },
    min := { name := minField, isRange := true, start := 0, endv := 59 },
    hour := { name := hourField, isRange := true, start := 0, endv := 23 },
    day := { name := dayField, isRange := true, start := 1, endv := 31 },
    mon := { name := monField, isRange := true, start := 1, endv := 12 },
    week := { isRange := true, start := 0, endv := 6 } }

/-- The trigger Go produces for `"x,5 * * * * ?"`: the non-numeric enum value
`x` of the seconds list is silently accepted as 0 (`checkAlias` ignores the
seconds field), yielding the value list [0, 5]. -/
def xEnumTrig : trigger :=
  { cron := "x,5 * * * * ?",
    sec := { name := secField, values := [0, 5] },
    min := { name := minField, isRange := true, start := 0, endv := 59 },
    hour := { name := hourField, isRange := true, start := 0, endv := 23 },
    day := { name := dayField, isRange := true, start := 1, endv := 31 },
    mon := { name := monField, isRange := true, start := 1, endv := 12 },
    week := { isRange := true, start := 0, endv := 6 } }

/-- The trigger Go produces for `"0 0 59 * * ?"`: the single-value hour token
is checked against the literal bound 59 instead of the hour domain 0-23, so
the out-of-domain hour 59 is accepted. -/
def hour59Trig : trigger :=
  { cron := "0 0 59 * * ?",
    sec := { name := secField, isRange := true, start := 0, endv := 0 },
    min := { name := minField, isRange := true, start := 0, endv := 0 },
    hour := { name := hourField, isRange := true, start := 59, endv := 59 },
    day := { name := dayField, isRange := true, start := 1, endv := 31 },
    mon := { name := monField, isRange := true, start := 1, endv := 12 },
    week := { isRange := true, start := 0, endv := 6 } }

/-- The trigger Go produces for `"0 0 0 xW * ?"`: the `ParseUint` error for
the non-numeric `N` of the `NW` day token is discarded, so the rule is stored
as `dayNW 0`. -/
def xwTrig : trigger :=
  { cron := "0 0 0 xW * ?",
    sec := { name := secField, isRange := true, start := 0, endv := 0 },
    min := { name := minField, isRange := true, start := 0, endv := 0 },
    hour := { name := hourField, isRange := true, start := 0, endv := 0 },
    day := { name := dayField, calculate := some (.dayNW 0) },
    mon := { name := monField, isRange := true, start := 1, endv := 12 },
    week := { isRange := true, start := 0, endv := 6 } }

/-- Reference (spec-side) month length: the number of days between the first
of (year, month) and the first of the following month in the calendar model;
the yardstick against which `getYearMonthDays` is checked. -/
def daysInMonthSpec (y m : Int) : Int :=
  (goDate y (m + 1) 1 0 0 0 - goDate y m 1 0 0 0) / 86400

/-- The trigger Go produces for `"0 15 10 29W 2 ?"` (10:15:00 of the workday
nearest to Feb 29, searching backward within February). -/
def w29 : trigger :=
  { cron := "0 15 10 29W 2 ?",
    sec := { name := secField, isRange := true, start := 0, endv := 0 },
    min := { name := minField, isRange := true, start := 15, endv := 15 },
    hour := { name := hourField, isRange := true, start := 10, endv := 10 },
    day := { name := dayField, calculate := some (.dayNW 29) },
    mon := { name := monField, isRange := true, start := 2, endv := 2 },
    week := { isRange := true, start := 0, endv := 6 } }

/-- The invariant of claim C10: the id→job map and the job slice describe
exactly the same set of jobs — an id is a key of the map iff a job with that
id is in the slice, a map hit lies in the slice with that id, and every slice
job is found in the map as itself. -/
def SchedInv (c : Scheduler) : Prop :=
  (∀ i : Int, (c.jobMap.lookup i).isSome ↔ ∃ j ∈ c.jobs, j.id = i) ∧
  (∀ (i : Int) (j : job), c.jobMap.lookup i = some j → j ∈ c.jobs ∧ j.id = i) ∧
  (∀ j ∈ c.jobs, c.jobMap.lookup j.id = some j)

/-- Strengthened scheduler invariant used to prove `SchedInv` preservation:
the map is exactly the slice paired with its ids, ids are unique, and no id
exceeds the counter. -/
def SchedInvS (c : Scheduler) : Prop :=
  c.jobMap = c.jobs.map (fun j => (j.id, j)) ∧
  (c.jobs.map job.id).Nodup ∧
  ∀ j ∈ c.jobs, j.id ≤ c.id

/-- Scheduler states reachable from `New` by `AddJob` and `Remove`. -/
inductive Reachable : Scheduler → Prop where
  | new : Reachable Scheduler.New
  | add (c : Scheduler) (expr : String) (now : Int) :
      Reachable c → Reachable (c.AddJob expr now).1
  | remove (c : Scheduler) (id : Int) : Reachable c → Reachable (c.Remove id)

/-! ## Characterisation of the matching-value scans -/

theorem rangeScanFrom_eq : ∀ (fuel : Nat) (i endv v : Int),
    (endv + 1 - i).toNat ≤ fuel →
    rangeScanFrom i endv v fuel =
      if i ≤ endv ∧ v ≤ endv then some (max i v) else none := by
  intro fuel
  induction fuel with
  | zero =>
    intro i endv v h
    have hne : ¬ (i ≤ endv ∧ v ≤ endv) := by omega
    simp only [rangeScanFrom, if_neg hne]
  | succ f ih =>
    intro i endv v h
    simp only [rangeScanFrom]
    by_cases h1 : i ≤ endv
    · rw [if_pos h1]
      by_cases h2 : v ≤ i
      · rw [if_pos h2, if_pos ⟨h1, le_trans h2 h1⟩]
        congr 1
        omega
      · rw [if_neg h2, ih (i + 1) endv v (by omega)]
        by_cases h3 : v ≤ endv
        · have hi1 : i + 1 ≤ endv := by omega
          rw [if_pos ⟨hi1, h3⟩, if_pos ⟨h1, h3⟩]
          congr 1
          omega
        · rw [if_neg (by omega), if_neg (by omega)]
    · rw [if_neg h1, if_neg (by omega)]

/-- Closed form of `getRangeNextValue`: the smallest in-range value `≥
nowValue` when one exists, else `(start, false)`. -/
theorem getRangeNextValue_eq (start endv v : Int) :
    getRangeNextValue start endv v =
      if start ≤ endv ∧ v ≤ endv then (max start v, true) else (start, false) := by
  unfold getRangeNextValue
  rw [rangeScanFrom_eq (endv + 1 - start).toNat start endv v (le_refl _)]
  by_cases h : start ≤ endv ∧ v ≤ endv
  · rw [if_pos h, if_pos h]
  · rw [if_neg h, if_neg h]

/-- The day scan of `getRangeDayNextValue` returns 0 when no in-range day at
or after `day` falls on the wanted weekday. -/
theorem dayScanFrom_eq_zero : ∀ (fuel : Nat) (i endv year m day w : Int),
    (∀ x, i ≤ x → x ≤ endv → day ≤ x → goWeekday (goDate year m x 0 0 0) ≠ w) →
    dayScanFrom i endv year m day w fuel = 0 := by
  intro fuel
  induction fuel with
  | zero => intro i endv year m day w _; rfl
  | succ f ih =>
    intro i endv year m day w hnone
    simp only [dayScanFrom]
    by_cases h1 : i ≤ endv
    · rw [if_pos h1]
      have hmiss : ¬ (day ≤ i ∧ goWeekday (goDate year m i 0 0 0) = w) := by
        intro hc
        exact hnone i le_rfl h1 hc.1 hc.2
      rw [if_neg hmiss]
      exact ih (i + 1) endv year m day w (fun x hx1 hx2 hx3 => hnone x (by omega) hx2 hx3)
    · rw [if_neg h1]

/-! ## Calendar facts: the February round trip

`dateToDays`/`civilFromDays` are mutually inverse on valid dates.  This is
proved for February (the month the `L`-rule claims quantify over): the
conversions are equivariant under 400-year shifts, and one 400-year cycle is
handled by a year-by-year case split on the year of era. -/

theorem dateToDays_shift (k y d : Int) :
    dateToDays (y + 400 * k) 2 d = dateToDays y 2 d + 146097 * k := by
  unfold dateToDays daysFromCivil
  norm_num
  omega

theorem civilOfEraDoe_shift (k era doe : Int) :
    civilOfEraDoe (era + k) doe =
      ((civilOfEraDoe era doe).1 + 400 * k, (civilOfEraDoe era doe).2.1,
        (civilOfEraDoe era doe).2.2) := by
  unfold civilOfEraDoe
  simp only [Prod.mk.injEq]
  split_ifs <;> exact ⟨by ring, trivial⟩

theorem civilFromDays_shift (k z : Int) :
    civilFromDays (z + 146097 * k) =
      ((civilFromDays z).1 + 400 * k, (civilFromDays z).2.1, (civilFromDays z).2.2) := by
  have h1 : (z + 146097 * k + 306) / 146097 = (z + 306) / 146097 + k := by omega
  show civilOfEraDoe ((z + 146097 * k + 306) / 146097)
      (z + 146097 * k + 306 - (z + 146097 * k + 306) / 146097 * 146097) = _
  rw [h1]
  have h2 : z + 146097 * k + 306 - ((z + 306) / 146097 + k) * 146097
      = z + 306 - (z + 306) / 146097 * 146097 := by ring
  rw [h2]
  exact civilOfEraDoe_shift k ((z + 306) / 146097) (z + 306 - (z + 306) / 146097 * 146097)

set_option maxHeartbeats 4000000 in
theorem feb_key (yoe d : Int) (h0 : 0 ≤ yoe) (h1 : yoe ≤ 399) (h2 : 1 ≤ d) (h3 : d ≤ 29)
    (h4 : d ≤ 28 ∨ ((yoe + 1) % 4 = 0 ∧ (yoe + 1) % 100 ≠ 0) ∨ (yoe + 1) % 400 = 0) :
    (yoe * 365 + yoe / 4 - yoe / 100 + 336 + d
      - (yoe * 365 + yoe / 4 - yoe / 100 + 336 + d) / 1460
      + (yoe * 365 + yoe / 4 - yoe / 100 + 336 + d) / 36524
      - (yoe * 365 + yoe / 4 - yoe / 100 + 336 + d) / 146096) / 365 = yoe := by
  interval_cases yoe <;> omega

theorem dateToDays_feb (y0 d : Int) (hy1 : 1 ≤ y0) (hy2 : y0 ≤ 400) :
    dateToDays y0 2 d
      = (y0 - 1) * 365 + (y0 - 1) / 4 - (y0 - 1) / 100 + 336 + d - 306 := by
  unfold dateToDays daysFromCivil
  norm_num
  omega

theorem civilFromDays_feb (X yoe d : Int)
    (hX : X = yoe * 365 + yoe / 4 - yoe / 100 + 336 + d - 306)
    (h0 : 0 ≤ yoe) (h1 : yoe ≤ 399) (h2 : 1 ≤ d) (h3 : d ≤ 29)
    (h4 : d ≤ 28 ∨ ((yoe + 1) % 4 = 0 ∧ (yoe + 1) % 100 ≠ 0) ∨ (yoe + 1) % 400 = 0) :
    civilFromDays X = (yoe + 1, 2, d) := by
  have hkey := feb_key yoe d h0 h1 h2 h3 h4
  have hera : (X + 306) / 146097 = 0 := by omega
  have hE : X + 306 - (X + 306) / 146097 * 146097
      = yoe * 365 + yoe / 4 - yoe / 100 + 336 + d := by omega
  unfold civilFromDays civilOfEraDoe
  norm_num
  rw [hE, hkey, hera]
  split_ifs <;> omega

theorem feb_bounded (y0 d : Int) (hy1 : 1 ≤ y0) (hy2 : y0 ≤ 400)
    (hd1 : 1 ≤ d) (hd2 : d ≤ 29)
    (hleap : d ≤ 28 ∨ (y0 % 4 = 0 ∧ y0 % 100 ≠ 0) ∨ y0 % 400 = 0) :
    civilFromDays (dateToDays y0 2 d) = (y0, 2, d) := by
  rw [dateToDays_feb y0 d hy1 hy2]
  have h := civilFromDays_feb
    ((y0 - 1) * 365 + (y0 - 1) / 4 - (y0 - 1) / 100 + 336 + d - 306)
    (y0 - 1) d rfl (by omega) (by omega) hd1 hd2 (by omega)
  rwa [show y0 - 1 + 1 = y0 by ring] at h

/-- Round trip for valid February dates, any year. -/
theorem feb_roundtrip (y d : Int) (hd1 : 1 ≤ d)
    (hd2 : d ≤ 28 ∨ (d = 29 ∧ ((y % 4 = 0 ∧ y % 100 ≠ 0) ∨ y % 400 = 0))) :
    civilFromDays (dateToDays y 2 d) = (y, 2, d) := by
  have hd29 : d ≤ 29 := by omega
  set k := (y - 1) / 400 with hk
  have hy0 : 1 ≤ y - 400 * k ∧ y - 400 * k ≤ 400 := by omega
  set y0 := y - 400 * k with hy0def
  have hleap : d ≤ 28 ∨ (y0 % 4 = 0 ∧ y0 % 100 ≠ 0) ∨ y0 % 400 = 0 := by omega
  have hbase := feb_bounded y0 d hy0.1 hy0.2 hd1 hd29 hleap
  have hsplit : y = y0 + 400 * k := by omega
  rw [hsplit, dateToDays_shift, civilFromDays_shift, hbase]

/-- `goDate` for a February date is the day count plus the seconds of day. -/
theorem goDate_feb (y d h mi s : Int) :
    goDate y 2 d h mi s = 86400 * dateToDays y 2 d + (3600 * h + 60 * mi + s) := by
  unfold goDate
  norm_num
  ring

/-- Day-count linearity for February. -/
theorem dateToDays_feb_linear (y d d' : Int) :
    dateToDays y 2 d - dateToDays y 2 d' = d - d' := by
  unfold dateToDays daysFromCivil
  norm_num

/-- Component extraction for a valid February instant. -/
theorem feb_components (y d h mi s : Int) (hd1 : 1 ≤ d)
    (hd2 : d ≤ 28 ∨ (d = 29 ∧ ((y % 4 = 0 ∧ y % 100 ≠ 0) ∨ y % 400 = 0)))
    (hh : 0 ≤ h) (hh2 : h ≤ 23) (hm : 0 ≤ mi) (hm2 : mi ≤ 59) (hs : 0 ≤ s) (hs2 : s ≤ 59) :
    goYear (goDate y 2 d h mi s) = y ∧
    goMonth (goDate y 2 d h mi s) = 2 ∧
    goDay (goDate y 2 d h mi s) = d ∧
    goHour (goDate y 2 d h mi s) = h ∧
    goMin (goDate y 2 d h mi s) = mi ∧
    goSec (goDate y 2 d h mi s) = s := by
  have hrt := feb_roundtrip y d hd1 hd2
  have hgd := goDate_feb y d h mi s
  have hdays : goDays (goDate y 2 d h mi s) = dateToDays y 2 d := by
    unfold goDays
    rw [hgd]
    omega
  have hsod : goSecsOfDay (goDate y 2 d h mi s) = 3600 * h + 60 * mi + s := by
    unfold goSecsOfDay
    rw [hgd]
    omega
  refine ⟨?_, ?_, ?_, ?_, ?_, ?_⟩
  · unfold goYear; rw [hdays, hrt]
  · unfold goMonth; rw [hdays, hrt]
  · unfold goDay; rw [hdays, hrt]
  · unfold goHour; rw [hsod]; omega
  · unfold goMin; rw [hsod]; omega
  · unfold goSec; rw [hsod]; omega

set_option maxHeartbeats 1600000 in
theorem getYearMonthDays_spec (y m : Int) (h1 : 1 ≤ m) (h2 : m ≤ 12) :
    getYearMonthDays y m = daysInMonthSpec y m := by
  unfold daysInMonthSpec getYearMonthDays goDate dateToDays daysFromCivil
  interval_cases m <;> norm_num <;> omega

/-! ## Evaluating `trigger.next` on the `L` trigger -/

/-- Unfolding `trigger.nextAux` one step when month, day and the h/m/s cascade
all resolve. -/
theorem nextAux_found (tr : trigger) (fuel : Nat) (now : Int) (m2 nd : Int) (res : Int)
    (hmo : (if tr.mon.isRange then getRangeNextValue tr.mon.start tr.mon.endv (goMonth now)
            else getIncreaseNextValue tr.mon.values (goMonth now)) = (m2, true))
    (hday : resolveDay tr now (goYear now) (goMonth now) (goWeekday now) (goDay now)
        (goHour now) (goMin now) (goSec now) (goYear now) m2 = .ok nd)
    (hhms : resolveHMS tr (goYear now) (goMonth now) (goDay now) (goHour now) (goMin now)
        (goSec now) (goYear now) m2 nd = .ok res) :
    tr.nextAux (fuel + 1) now = res := by
  simp only [trigger.nextAux]
  rw [hmo]
  simp only
  rw [hday]
  simp only
  rw [hhms]
  simp

theorem resolveDay_febL (now : Int) (y wd d h mi s : Int)
    (hnb : ¬ (goDate y 2 (getYearMonthDays y 2) h mi s < now)) :
    resolveDay febL now y 2 wd d h mi s y 2 = .ok (getYearMonthDays y 2) := by
  unfold resolveDay
  simp only [febL, Option.isSome_some, Option.isSome_none, CalcRule.eval, if_neg hnb]
  simp

theorem resolveHMS_febL (y d h mi s D : Int)
    (hh2 : h ≤ 23)
    (hzero : d = D → h = 23 → mi = 0 ∧ s = 0) :
    resolveHMS febL y 2 d h mi s y 2 D = .ok (goDate y 2 D 23 0 0) := by
  unfold resolveHMS
  by_cases hdD : D = d
  · by_cases hh23 : h = 23
    · obtain ⟨hmi, hs⟩ := hzero hdD.symm hh23
      subst hh23
      subst hmi
      subst hs
      simp [febL, getRangeNextValue_eq, hdD]
    · have h23h : ¬ ((23 : Int) = h) := fun e => hh23 e.symm
      have hmax : (23 : Int) ⊔ h = 23 := max_eq_left hh2
      simp [febL, getRangeNextValue_eq, hdD, hh2, h23h, hmax]
  · simp [febL, getRangeNextValue_eq, hdD]

/-- `"0 0 23 L * ?"` from any valid February instant at or before the fire
time resolves to 23:00:00 of the last day of that February. -/
theorem febL_next_eq (y d h mi s : Int)
    (hd1 : 1 ≤ d)
    (hd2 : d ≤ 28 ∨ (d = 29 ∧ ((y % 4 = 0 ∧ y % 100 ≠ 0) ∨ y % 400 = 0)))
    (hh1 : 0 ≤ h) (hh2 : h ≤ 23) (hm1 : 0 ≤ mi) (hm2 : mi ≤ 59) (hs1 : 0 ≤ s) (hs2 : s ≤ 59)
    (hle : goDate y 2 d h mi s ≤ goDate y 2 (getYearMonthDays y 2) 23 0 0) :
    febL.next (goDate y 2 d h mi s) = goDate y 2 (getYearMonthDays y 2) 23 0 0 := by
  obtain ⟨hcy, hcm, hcd, hch, hcmi, hcs⟩ :=
    feb_components y d h mi s hd1 hd2 hh1 hh2 hm1 hm2 hs1 hs2
  have hDif : getYearMonthDays y 2
      = if (y % 4 = 0 ∧ y % 100 ≠ 0) ∨ y % 400 = 0 then (29 : Int) else 28 := by
    unfold getYearMonthDays
    norm_num
  have hdD : d ≤ getYearMonthDays y 2 := by
    rw [hDif]
    split_ifs <;> omega
  have hlin := dateToDays_feb_linear y (getYearMonthDays y 2) d
  have hgd1 := goDate_feb y d h mi s
  have hgd2 := goDate_feb y (getYearMonthDays y 2) h mi s
  have hgd3 := goDate_feb y (getYearMonthDays y 2) 23 0 0
  have hnb : ¬ (goDate y 2 (getYearMonthDays y 2) h mi s < goDate y 2 d h mi s) := by
    rw [hgd1, hgd2]
    omega
  have hzero : d = getYearMonthDays y 2 → h = 23 → mi = 0 ∧ s = 0 := by
    intro e1 e2
    rw [hgd1, hgd3] at hle
    rw [← e1] at hle
    omega
  unfold trigger.next
  refine nextAux_found febL maxDeep (goDate y 2 d h mi s) 2 (getYearMonthDays y 2)
      (goDate y 2 (getYearMonthDays y 2) 23 0 0) ?_ ?_ ?_
  · rw [hcm]
    decide
  · rw [hcy, hcm, hcd, hch, hcmi, hcs]
    exact resolveDay_febL (goDate y 2 d h mi s) y (goWeekday (goDate y 2 d h mi s)) d h mi s hnb
  · rw [hcy, hcm, hcd, hch, hcmi, hcs]
    exact resolveHMS_febL y d h mi s (getYearMonthDays y 2) hh2 hzero

/-! ## Day-0 and day-scan facts -/


theorem goDate_day_linear (y m d h mi s : Int) :
    goDate y m d h mi s = goDate y m 1 h mi s + 86400 * (d - 1) := by
  unfold goDate dateToDays daysFromCivil
  dsimp only
  split_ifs <;> ring

theorem getRangeDayNextValue_zero (start endv year m day w : Int)
    (h : ∀ i, start ≤ i → i ≤ endv → day ≤ i → goWeekday (goDate year m i 0 0 0) ≠ w) :
    getRangeDayNextValue start endv year m day w = 0 := by
  unfold getRangeDayNextValue
  exact dayScanFrom_eq_zero (endv + 1 - start).toNat start endv year m day w h

theorem getIncreaseDayNextValue_zero (values : List Int) (year m day w : Int)
    (h : ∀ i ∈ values, day ≤ i → goWeekday (goDate year m i 0 0 0) ≠ w) :
    getIncreaseDayNextValue values year m day w = 0 := by
  unfold getIncreaseDayNextValue
  have hnone : values.find?
      (fun i => decide (day ≤ i ∧ goWeekday (goDate year m i 0 0 0) = w)) = none := by
    rw [List.find?_eq_none]
    intro x hx
    simp only [decide_eq_true_eq, not_and]
    exact h x hx
  rw [hnone]


/-! ## Well-formedness of successfully parsed fields -/


theorem ranges_min_le_max (fname : String) : (ranges fname).1 ≤ (ranges fname).2 := by
  unfold ranges
  split_ifs <;> decide

theorem parserRangeField_ok (fname : String) (arr : List String) (f : field)
    (h : parserRangeField fname arr = .ok f) :
    f.isRange = true ∧ (ranges fname).1 ≤ f.start ∧ f.start ≤ f.endv ∧
      f.endv ≤ (ranges fname).2 := by
  unfold parserRangeField at h
  cases h0 : parseBoundValue fname (arr.getD 0 "") with
  | none => rw [h0] at h; exact Except.noConfusion h
  | some st =>
    rw [h0] at h
    dsimp only at h
    split at h
    · exact Except.noConfusion h
    · cases h1 : parseBoundValue fname (arr.getD 1 "") with
      | none => rw [h1] at h; exact Except.noConfusion h
      | some en =>
        rw [h1] at h
        dsimp only at h
        split at h
        · exact Except.noConfusion h
        · split at h
          · exact Except.noConfusion h
          · injection h with h
            subst h
            refine ⟨rfl, ?_, ?_, ?_⟩ <;> simp only [field.start, field.endv] <;> omega

theorem parseUint8_nonneg (s : String) : 0 ≤ (parseUint8 s).1 := by
  unfold parseUint8
  dsimp only
  split_ifs <;> simp

theorem parserIncreaseField_ok (fname : String) (arr : List String) (f : field)
    (h : parserIncreaseField fname arr = .ok f) :
    1 ≤ f.increment ∧ f.increment ≤ (ranges fname).2 ∧
      (ranges fname).1 ≤ f.start ∧ f.start ≤ (ranges fname).2 := by
  have hmm := ranges_min_le_max fname
  have hp1 := parseUint8_nonneg (arr.getD 1 "")
  unfold parserIncreaseField at h
  dsimp only at h
  split at h
  · exact Except.noConfusion h
  · rename_i start hstart
    split at h
    · exact Except.noConfusion h
    · split at h
      · exact Except.noConfusion h
      · split at h
        · exact Except.noConfusion h
        · injection h with h
          subst h
          have hst : (ranges fname).1 ≤ start ∧ start ≤ (ranges fname).2 := by
            split at hstart
            · injection hstart with he
              subst he
              exact ⟨le_refl _, hmm⟩
            · split at hstart
              · exact Except.noConfusion hstart
              · split at hstart
                · exact Except.noConfusion hstart
                · injection hstart with he
                  subst he
                  rename_i hc _
                  constructor <;> omega
          refine ⟨?_, ?_, hst.1, hst.2⟩ <;> simp only [field.increment] <;> omega

theorem parseEnumValues_bounds (fname : String) : ∀ (arr : List String) (vs : List Int),
    parseEnumValues fname arr = .ok vs →
    ∀ v ∈ vs, (ranges fname).1 ≤ v ∧ v ≤ (ranges fname).2 := by
  intro arr
  induction arr with
  | nil =>
    intro vs h v hv
    unfold parseEnumValues at h
    injection h with h
    subst h
    cases hv
  | cons s rest ih =>
    intro vs h v hv
    unfold parseEnumValues at h
    split at h
    · exact Except.noConfusion h
    · split at h
      · exact Except.noConfusion h
      · split at h
        · exact Except.noConfusion h
        · rename_i v0 hv0 hbnd vs0 hvs0
          injection h with h
          subst h
          rcases List.mem_cons.mp hv with rfl | hmem
          · constructor <;> omega
          · exact ih vs0 hvs0 v hmem

theorem mem_insertSorted (x a : Int) : ∀ (l : List Int), x ∈ insertSorted a l ↔ x = a ∨ x ∈ l := by
  intro l
  induction l with
  | nil => simp [insertSorted]
  | cons y ys ih =>
    unfold insertSorted
    split_ifs
    · simp
    · rw [List.mem_cons, ih, List.mem_cons]
      tauto

theorem mem_sortInts (x : Int) : ∀ (l : List Int), x ∈ sortInts l ↔ x ∈ l := by
  intro l
  induction l with
  | nil => simp [sortInts]
  | cons y ys ih =>
    unfold sortInts at *
    simp only [List.foldr_cons]
    rw [mem_insertSorted, ih, List.mem_cons]

theorem parserEnumField_ok (fname : String) (arr : List String) (f : field)
    (h : parserEnumField fname arr = .ok f) :
    ∀ v ∈ f.values, (ranges fname).1 ≤ v ∧ v ≤ (ranges fname).2 := by
  unfold parserEnumField at h
  split at h
  · exact Except.noConfusion h
  · rename_i vs hvs
    injection h with h
    subst h
    intro v hv
    simp only [field.values] at hv
    rw [mem_sortInts] at hv
    exact parseEnumValues_bounds fname arr vs hvs v hv



/-! ## Rejection of invalid tokens

Each lemma unfolds one parser routine and shows it returns an error under the
stated condition, mirroring the error paths of `cron.go` lines 242-647. -/

theorem parserRangeField_err (fname : String) (arr : List String)
    (h : parseBoundValue fname (arr.getD 0 "") = none ∨
         parseBoundValue fname (arr.getD 1 "") = none ∨
         (∃ st en, parseBoundValue fname (arr.getD 0 "") = some st ∧
            parseBoundValue fname (arr.getD 1 "") = some en ∧
            (st < (ranges fname).1 ∨ (ranges fname).2 < st ∨
             en < (ranges fname).1 ∨ (ranges fname).2 < en ∨ en < st))) :
    ∃ e, parserRangeField fname arr = .error e := by
  unfold parserRangeField
  cases h0 : parseBoundValue fname (arr.getD 0 "") with
  | none => exact ⟨_, rfl⟩
  | some st =>
    dsimp only
    by_cases hb1 : st < (ranges fname).1 ∨ (ranges fname).2 < st
    · rw [if_pos hb1]
      exact ⟨_, rfl⟩
    · rw [if_neg hb1]
      cases h1 : parseBoundValue fname (arr.getD 1 "") with
      | none => exact ⟨_, rfl⟩
      | some en =>
        dsimp only
        by_cases hb2 : en < (ranges fname).1 ∨ (ranges fname).2 < en
        · rw [if_pos hb2]
          exact ⟨_, rfl⟩
        · rw [if_neg hb2]
          by_cases hb3 : en < st
          · rw [if_pos hb3]
            exact ⟨_, rfl⟩
          · exfalso
            rcases h with h | h | ⟨st', en', hst', hen', hbad⟩
            · rw [h0] at h
              cases h
            · rw [h1] at h
              cases h
            · rw [h0] at hst'
              rw [h1] at hen'
              injection hst' with hst'
              injection hen' with hen'
              subst hst'
              subst hen'
              omega

theorem parserIncreaseField_err (fname : String) (arr : List String)
    (h : (arr.getD 0 "" ≠ "*" ∧
           ((parseUint8 (arr.getD 0 "")).2 = false ∨
            (parseUint8 (arr.getD 0 "")).1 < (ranges fname).1 ∨
            (ranges fname).2 < (parseUint8 (arr.getD 0 "")).1)) ∨
         (parseUint8 (arr.getD 1 "")).2 = false ∨
         (parseUint8 (arr.getD 1 "")).1 = 0 ∨
         (parseUint8 (arr.getD 1 "")).1 < (ranges fname).1 ∨
         (ranges fname).2 < (parseUint8 (arr.getD 1 "")).1) :
    ∃ e, parserIncreaseField fname arr = .error e := by
  unfold parserIncreaseField
  rcases hq0 : parseUint8 (arr.getD 0 "") with ⟨v0, b0⟩
  rcases hq1 : parseUint8 (arr.getD 1 "") with ⟨v1, b1⟩
  rw [hq0, hq1] at h
  dsimp only at h ⊢
  by_cases hs : arr.getD 0 "" = "*"
  · rw [if_pos hs]
    dsimp only
    cases b1 with
    | false =>
      rw [if_pos (by simp)]
      exact ⟨_, rfl⟩
    | true =>
      rw [if_neg (by simp)]
      have hbad : v1 = 0 ∨ v1 < (ranges fname).1 ∨ (ranges fname).2 < v1 := by
        rcases h with ⟨hne, _⟩ | h | h | h | h
        · exact absurd hs hne
        · cases h
        · exact Or.inl h
        · exact Or.inr (Or.inl h)
        · exact Or.inr (Or.inr h)
      by_cases h10 : v1 = 0
      · rw [if_pos h10]
        exact ⟨_, rfl⟩
      · rw [if_neg h10]
        rw [if_pos (by omega)]
        exact ⟨_, rfl⟩
  · rw [if_neg hs]
    cases b0 with
    | false =>
      rw [if_pos (by simp)]
      exact ⟨_, rfl⟩
    | true =>
      rw [if_neg (by simp)]
      by_cases hb0 : v0 < (ranges fname).1 ∨ (ranges fname).2 < v0
      · rw [if_pos hb0]
        exact ⟨_, rfl⟩
      · rw [if_neg hb0]
        dsimp only
        have hbad : b1 = false ∨ v1 = 0 ∨ v1 < (ranges fname).1 ∨ (ranges fname).2 < v1 := by
          rcases h with ⟨_, h⟩ | h | h | h | h
          · rcases h with h | h | h
            · cases h
            · exact absurd (Or.inl h) hb0
            · exact absurd (Or.inr h) hb0
          · exact Or.inl h
          · exact Or.inr (Or.inl h)
          · exact Or.inr (Or.inr (Or.inl h))
          · exact Or.inr (Or.inr (Or.inr h))
        cases b1 with
        | false =>
          rw [if_pos (by simp)]
          exact ⟨_, rfl⟩
        | true =>
          rw [if_neg (by simp)]
          have hbad2 : v1 = 0 ∨ v1 < (ranges fname).1 ∨ (ranges fname).2 < v1 := by
            rcases hbad with h | h
            · cases h
            · exact h
          by_cases h10 : v1 = 0
          · rw [if_pos h10]
            exact ⟨_, rfl⟩
          · rw [if_neg h10]
            rw [if_pos (by omega)]
            exact ⟨_, rfl⟩

theorem parseEnumValues_err (fname : String) (arr : List String)
    (h : ∃ s ∈ arr, parseBoundValue fname s = none ∨
         (∃ v, parseBoundValue fname s = some v ∧
           (v < (ranges fname).1 ∨ (ranges fname).2 < v))) :
    ∃ e, parseEnumValues fname arr = .error e := by
  induction arr with
  | nil =>
    rcases h with ⟨s, hs, _⟩
    cases hs
  | cons a rest ih =>
    unfold parseEnumValues
    cases h0 : parseBoundValue fname a with
    | none => exact ⟨_, rfl⟩
    | some v =>
      dsimp only
      by_cases hb : v < (ranges fname).1 ∨ (ranges fname).2 < v
      · rw [if_pos hb]
        exact ⟨_, rfl⟩
      · rw [if_neg hb]
        have hrest : ∃ s ∈ rest, parseBoundValue fname s = none ∨
            (∃ v, parseBoundValue fname s = some v ∧
              (v < (ranges fname).1 ∨ (ranges fname).2 < v)) := by
          rcases h with ⟨s, hs, hcase⟩
          rcases List.mem_cons.mp hs with rfl | hmem
          · exfalso
            rcases hcase with hc | ⟨v', hv', hbad⟩
            · rw [h0] at hc
              cases hc
            · rw [h0] at hv'
              injection hv' with hv'
              subst hv'
              omega
          · exact ⟨s, hmem, hcase⟩
        obtain ⟨e, he⟩ := ih hrest
        rw [he]
        exact ⟨e, rfl⟩

theorem parserEnumField_err (fname : String) (arr : List String)
    (h : ∃ s ∈ arr, parseBoundValue fname s = none ∨
         (∃ v, parseBoundValue fname s = some v ∧
           (v < (ranges fname).1 ∨ (ranges fname).2 < v))) :
    ∃ e, parserEnumField fname arr = .error e := by
  obtain ⟨e, he⟩ := parseEnumValues_err fname arr h
  unfold parserEnumField
  rw [he]
  exact ⟨e, rfl⟩

theorem parseSMH_err (name str : String) (hw : str ≠ "*")
    (hd : containsChar '-' str = false) (hsl : containsChar '/' str = false)
    (hc : containsChar ',' str = false)
    (hbad : (parseUint8 str).2 = false ∨ 59 < (parseUint8 str).1) :
    ∃ e, parseSMH name str = .error e := by
  unfold parseSMH
  rw [if_neg hw, if_neg (by simp [hd]), if_neg (by simp [hsl]), if_neg (by simp [hc])]
  rcases hq : parseUint8 str with ⟨v, b⟩
  rw [hq] at hbad
  dsimp only at hbad ⊢
  cases b with
  | false =>
    rw [if_pos (by simp)]
    exact ⟨_, rfl⟩
  | true =>
    rw [if_neg (by simp)]
    have h59 : 59 < v := by
      rcases hbad with h | h
      · cases h
      · exact h
    rw [if_pos (Or.inr h59)]
    exact ⟨_, rfl⟩

theorem parserDayField_err (s : String) (h1 : s ≠ "*") (h2 : s ≠ "?")
    (hd : containsChar '-' s = false) (hsl : containsChar '/' s = false)
    (hc : containsChar ',' s = false) (hL : s ≠ "L") (hLW : s ≠ "LW")
    (hW : containsChar 'W' s = false)
    (hbad : (parseUint8 s).1 < 1 ∨ 31 < (parseUint8 s).1) :
    ∃ e, parserDayField s = .error e := by
  unfold parserDayField
  rw [if_neg (by simp [h1, h2]), if_neg (by simp [hd]), if_neg (by simp [hsl]),
    if_neg (by simp [hc]), if_neg hL, if_neg hLW, if_neg (by simp [hW])]
  dsimp only
  rw [if_pos hbad]
  exact ⟨_, rfl⟩

theorem parserMonField_err (s : String) (hw : s ≠ "*")
    (hd : containsChar '-' s = false) (hsl : containsChar '/' s = false)
    (hc : containsChar ',' s = false)
    (hbad : ((parseUint8 s).2 = false ∧ monsAlias s = none) ∨
            ((parseUint8 s).2 = true ∧
              ((parseUint8 s).1 < 1 ∨ 12 < (parseUint8 s).1))) :
    ∃ e, parserMonField s = .error e := by
  unfold parserMonField
  rw [if_neg hw, if_neg (by simp [hd]), if_neg (by simp [hsl]), if_neg (by simp [hc])]
  rcases hq : parseUint8 s with ⟨v, b⟩
  rw [hq] at hbad
  dsimp only at hbad ⊢
  cases b with
  | false =>
    rw [if_pos (by simp)]
    rcases hbad with ⟨_, hal⟩ | ⟨hf, _⟩
    · rw [hal]
      exact ⟨_, rfl⟩
    · cases hf
  | true =>
    rw [if_neg (by simp)]
    rcases hbad with ⟨hf, _⟩ | ⟨_, hbounds⟩
    · cases hf
    · rw [if_pos hbounds]
      exact ⟨_, rfl⟩

theorem parserWeekField_err_single (arr : List String) (s : String)
    (h1 : s ≠ "*") (h2 : s ≠ "?")
    (hd : containsChar '-' s = false) (hsl : containsChar '/' s = false)
    (hc : containsChar ',' s = false) (hL : containsChar 'L' s = false)
    (hH : containsChar '#' s = false)
    (hbad : ((parseUint8 s).2 = false ∧ weekAlias s = none) ∨
            ((parseUint8 s).2 = true ∧ 6 < (parseUint8 s).1)) :
    ∃ e, parserWeekField arr s = .error e := by
  unfold parserWeekField
  rw [if_neg (by simp [h1, h2])]
  by_cases hday : arr.getD 3 "" ≠ "*" ∧ arr.getD 3 "" ≠ "?"
  · rw [if_pos hday]
    exact ⟨_, rfl⟩
  · rw [if_neg hday, if_neg (by simp [hd]), if_neg (by simp [hsl]),
      if_neg (by simp [hc]), if_neg (by simp [hL]), if_neg (by simp [hH])]
    rcases hq : parseUint8 s with ⟨v, b⟩
    rw [hq] at hbad
    dsimp only at hbad ⊢
    cases b with
    | false =>
      rw [if_pos (by simp)]
      rcases hbad with ⟨_, hal⟩ | ⟨hf, _⟩
      · rw [hal]
        exact ⟨_, rfl⟩
      · cases hf
    | true =>
      rw [if_neg (by simp)]
      rcases hbad with ⟨hf, _⟩ | ⟨_, hbounds⟩
      · cases hf
      · rw [if_pos hbounds]
        exact ⟨_, rfl⟩

theorem parserWeekField_err_NL (arr : List String) (s : String)
    (h1 : s ≠ "*") (h2 : s ≠ "?")
    (hd : containsChar '-' s = false) (hsl : containsChar '/' s = false)
    (hc : containsChar ',' s = false) (hLc : containsChar 'L' s = true)
    (hnL : s ≠ "L")
    (hbad : (parseUint8 (takeBefore 'L' s)).2 = false ∨
            6 < (parseUint8 (takeBefore 'L' s)).1) :
    ∃ e, parserWeekField arr s = .error e := by
  unfold parserWeekField
  rw [if_neg (by simp [h1, h2])]
  by_cases hday : arr.getD 3 "" ≠ "*" ∧ arr.getD 3 "" ≠ "?"
  · rw [if_pos hday]
    exact ⟨_, rfl⟩
  · rw [if_neg hday, if_neg (by simp [hd]), if_neg (by simp [hsl]),
      if_neg (by simp [hc]), if_pos (by simp [hLc]), if_neg hnL]
    rcases hq : parseUint8 (takeBefore 'L' s) with ⟨v, b⟩
    rw [hq] at hbad
    dsimp only at hbad ⊢
    cases b with
    | false =>
      rw [if_pos (by simp)]
      exact ⟨_, rfl⟩
    | true =>
      rw [if_neg (by simp)]
      have h6 : 6 < v := by
        rcases hbad with h | h
        · cases h
        · exact h
      rw [if_pos h6]
      exact ⟨_, rfl⟩

theorem parserWeekField_err_hash (arr : List String) (s : String)
    (h1 : s ≠ "*") (h2 : s ≠ "?")
    (hd : containsChar '-' s = false) (hsl : containsChar '/' s = false)
    (hc : containsChar ',' s = false) (hL : containsChar 'L' s = false)
    (hHc : containsChar '#' s = true)
    (hbad : (parseUint8 (takeBefore '#' s)).2 = false ∨
            6 < (parseUint8 (takeBefore '#' s)).1 ∨
            (parseUint8 (takeAfter '#' s)).2 = false ∨
            (parseUint8 (takeAfter '#' s)).1 < 1 ∨
            4 < (parseUint8 (takeAfter '#' s)).1) :
    ∃ e, parserWeekField arr s = .error e := by
  unfold parserWeekField
  rw [if_neg (by simp [h1, h2])]
  by_cases hday : arr.getD 3 "" ≠ "*" ∧ arr.getD 3 "" ≠ "?"
  · rw [if_pos hday]
    exact ⟨_, rfl⟩
  · rw [if_neg hday, if_neg (by simp [hd]), if_neg (by simp [hsl]),
      if_neg (by simp [hc]), if_neg (by simp [hL]), if_pos (by simp [hHc])]
    rcases hqd : parseUint8 (takeBefore '#' s) with ⟨vd, bd⟩
    rcases hqn : parseUint8 (takeAfter '#' s) with ⟨vn, bn⟩
    rw [hqd, hqn] at hbad
    dsimp only at hbad ⊢
    cases bd with
    | false =>
      rw [if_pos (by simp)]
      exact ⟨_, rfl⟩
    | true =>
      rw [if_neg (by simp)]
      by_cases h6 : 6 < vd
      · rw [if_pos h6]
        exact ⟨_, rfl⟩
      · rw [if_neg h6]
        have hbad2 : bn = false ∨ vn < 1 ∨ 4 < vn := by
          rcases hbad with h | h | h | h | h
          · cases h
          · exact absurd h h6
          · exact Or.inl h
          · exact Or.inr (Or.inl h)
          · exact Or.inr (Or.inr h)
        cases bn with
        | false =>
          rw [if_pos (by simp)]
          exact ⟨_, rfl⟩
        | true =>
          rw [if_neg (by simp)]
          have hb : vn < 1 ∨ 4 < vn := by
            rcases hbad2 with h | h
            · cases h
            · exact h
          rw [if_pos hb]
          exact ⟨_, rfl⟩


/-! ## Scheduler state lemmas -/


theorem lookup_map_isSome (jobs : List job) (i : Int) :
    ((jobs.map (fun j => (j.id, j))).lookup i).isSome ↔ ∃ j ∈ jobs, j.id = i := by
  induction jobs with
  | nil => simp [List.lookup]
  | cons j0 rest ih =>
    simp only [List.map_cons, List.lookup]
    by_cases h : i = j0.id
    · simp [h, beq_iff_eq]
    · have : (i == j0.id) = false := by simp [beq_iff_eq, h]
      simp only [this]
      rw [ih]
      constructor
      · rintro ⟨j, hj, hje⟩
        exact ⟨j, List.mem_cons_of_mem j0 hj, hje⟩
      · rintro ⟨j, hj, hje⟩
        rcases List.mem_cons.mp hj with rfl | hmem
        · exact absurd hje.symm h  
        · exact ⟨j, hmem, hje⟩

theorem lookup_map_mem (jobs : List job) (i : Int) (j : job) :
    (jobs.map (fun j => (j.id, j))).lookup i = some j → j ∈ jobs ∧ j.id = i := by
  induction jobs with
  | nil => intro h; simp [List.lookup] at h
  | cons j0 rest ih =>
    intro h
    simp only [List.map_cons, List.lookup] at h
    by_cases he : i = j0.id
    · have : (i == j0.id) = true := by simp [beq_iff_eq, he]
      rw [this] at h
      simp at h
      subst h
      exact ⟨List.mem_cons_self j0 rest, he.symm⟩
    · have : (i == j0.id) = false := by simp [beq_iff_eq, he]
      rw [this] at h
      simp at h
      obtain ⟨hm, hid⟩ := ih h
      exact ⟨List.mem_cons_of_mem j0 hm, hid⟩

theorem lookup_map_self (jobs : List job) (hnd : (jobs.map job.id).Nodup) :
    ∀ j ∈ jobs, (jobs.map (fun j => (j.id, j))).lookup j.id = some j := by
  induction jobs with
  | nil => intro j hj; cases hj
  | cons j0 rest ih =>
    intro j hj
    simp only [List.map_cons, List.nodup_cons] at hnd
    rcases List.mem_cons.mp hj with rfl | hmem
    · simp [List.lookup]
    · have hne : ¬ (j.id = j0.id) := by
        intro he
        exact hnd.1 (he ▸ List.mem_map_of_mem job.id hmem)
      simp only [List.map_cons, List.lookup]
      have : (j.id == j0.id) = false := by simp [beq_iff_eq, hne]
      rw [this]
      exact ih hnd.2 j hmem

theorem mapSet_fresh (m : List (Int × job)) (k : Int) (v : job)
    (h : ∀ p ∈ m, p.1 ≠ k) : mapSet m k v = m ++ [(k, v)] := by
  induction m with
  | nil => rfl
  | cons p rest ih =>
    simp only [mapSet]
    have hp : p.1 ≠ k := h p (List.mem_cons_self p rest)
    rw [if_neg hp]
    simp only [List.cons_append, List.cons.injEq, true_and]
    exact ih (fun q hq => h q (List.mem_cons_of_mem p hq))

theorem splice_sublist : ∀ (l : List job) (n : Nat),
    List.Sublist (l.take n ++ l.drop (n + 1)) l := by
  intro l
  induction l with
  | nil => intro n; simp
  | cons a rest ih =>
    intro n
    cases n with
    | zero => simp [List.Sublist.cons]
    | succ n =>
      simp only [List.take_succ_cons, List.drop_succ_cons, List.cons_append]
      exact List.Sublist.cons₂ a (ih n)

theorem mapDelete_map_pair (id : Int) : ∀ (jobs : List job),
    mapDelete (jobs.map (fun j => (j.id, j))) id
      = ((jobs.take (jobFindIdx jobs id) ++ jobs.drop (jobFindIdx jobs id + 1)).map
          (fun j => (j.id, j))) := by
  intro jobs
  induction jobs with
  | nil => rfl
  | cons j0 rest ih =>
    simp only [List.map_cons, mapDelete, jobFindIdx]
    by_cases h : j0.id = id
    · rw [if_pos h, if_pos h]
      simp
    · rw [if_neg h, if_neg h]
      simp only [List.take_succ_cons, List.drop_succ_cons, List.cons_append, List.map_cons,
        List.cons.injEq, true_and]
      exact ih

theorem addJob_invS (c : Scheduler) (expr : String) (now : Int) (h : SchedInvS c) :
    SchedInvS (c.AddJob expr now).1 := by
  obtain ⟨hmap, hnd, hbound⟩ := h
  unfold Scheduler.AddJob
  cases hn : newJob expr now with
  | error e => exact ⟨hmap, hnd, hbound⟩
  | ok j0 =>
    dsimp only
    constructor
    · rw [hmap, mapSet_fresh]
      · simp
      · rintro p hp
        rw [List.mem_map] at hp
        obtain ⟨j, hj, rfl⟩ := hp
        have := hbound j hj
        simp only
        omega
    constructor
    · simp only [List.map_append, List.map_cons, List.map_nil]
      rw [List.nodup_append]
      refine ⟨hnd, List.nodup_singleton _, ?_⟩
      intro x hx hy
      simp only [List.mem_singleton] at hy
      rw [List.mem_map] at hx
      obtain ⟨j, hj, rfl⟩ := hx
      have hb := hbound j hj
      rw [hy] at hb
      have hb2 : c.id + 1 ≤ c.id := hb
      omega
    · intro j hj
      rcases List.mem_append.mp hj with hm | hm
      · have hb := hbound j hm
        show j.id ≤ c.id + 1
        omega
      · simp only [List.mem_singleton] at hm
        subst hm
        show c.id + 1 ≤ c.id + 1
        omega

theorem remove_invS (c : Scheduler) (id : Int) (h : SchedInvS c) :
    SchedInvS (c.Remove id) := by
  obtain ⟨hmap, hnd, hbound⟩ := h
  unfold Scheduler.Remove
  by_cases hl : (c.jobMap.lookup id).isNone
  · rw [if_pos hl]
    exact ⟨hmap, hnd, hbound⟩
  · rw [if_neg hl]
    have hsome : (c.jobMap.lookup id).isSome := by
      cases hopt : c.jobMap.lookup id
      · rw [hopt] at hl; simp at hl
      · simp
    by_cases hlen : c.jobs.length = 1
    · rw [if_pos hlen]
      obtain ⟨j0, hj0⟩ : ∃ j0, c.jobs = [j0] := by
        cases hjs : c.jobs with
        | nil => rw [hjs] at hlen; simp at hlen
        | cons a rest =>
          rw [hjs] at hlen
          simp at hlen
          exact ⟨a, by rw [hlen]⟩
      have hid : id = j0.id := by
        rw [hmap, hj0] at hsome
        rw [Option.isSome_iff_exists] at hsome
        obtain ⟨j, hj⟩ := hsome
        have hmem := lookup_map_mem [j0] id j hj
        have hjj : j = j0 := List.mem_singleton.mp hmem.1
        subst hjj
        exact hmem.2.symm
      refine ⟨?_, by simp, by intro j hj; cases hj⟩
      rw [hmap, hj0, hid]
      simp [mapDelete]
    · rw [if_neg hlen]
      simp only
      have hsub := splice_sublist c.jobs (jobFindIdx c.jobs id)
      refine ⟨?_, ?_, ?_⟩
      · rw [hmap, mapDelete_map_pair]
      · exact List.Nodup.sublist (List.Sublist.map job.id hsub) hnd
      · intro j hj
        exact hbound j (hsub.subset hj)

theorem invS_inv (c : Scheduler) (h : SchedInvS c) : SchedInv c := by
  obtain ⟨hmap, hnd, hbound⟩ := h
  refine ⟨?_, ?_, ?_⟩
  · intro i
    rw [hmap]
    exact lookup_map_isSome c.jobs i
  · intro i j hij
    rw [hmap] at hij
    exact lookup_map_mem c.jobs i j hij
  · intro j hj
    rw [hmap]
    exact lookup_map_self c.jobs hnd j hj

/-- C10 attempt. -/
theorem claim_C10 (c : Scheduler) (h : Reachable c) : SchedInv c := by
  have hS : SchedInvS c := by
    induction h with
    | new => exact ⟨rfl, List.nodup_nil, by intro j hj; cases hj⟩
    | add c e n hr ih => exact addJob_invS c e n ih
    | remove c i hr ih => exact remove_invS c i ih
  exact invS_inv c hS

/-- Witness for C10. -/
theorem claim_C10_witness : SchedInv Scheduler.New := claim_C10 Scheduler.New Reachable.new

/-! ## The claims -/

/-- C7: the expression `"0 0 23 L * ?"` parses to `febL`; from any instant in
February (given by its components) at or before the fire time, `trigger.next`
resolves to 23:00:00 of February 29 when the year is a leap year per the
4/100/400 rule and of February 28 otherwise; and in general the `L` rule's
`getYearMonthDays` equals the true last calendar day of the (year, month). -/
theorem claim_C7 :
    trigger.parse "0 0 23 L * ?" = .ok febL ∧
    (∀ y d h mi s : Int,
      1 ≤ d → (d ≤ 28 ∨ (d = 29 ∧ ((y % 4 = 0 ∧ y % 100 ≠ 0) ∨ y % 400 = 0))) →
      0 ≤ h → h ≤ 23 → 0 ≤ mi → mi ≤ 59 → 0 ≤ s → s ≤ 59 →
      goDate y 2 d h mi s ≤
        goDate y 2 (if (y % 4 = 0 ∧ y % 100 ≠ 0) ∨ y % 400 = 0 then 29 else 28) 23 0 0 →
      febL.next (goDate y 2 d h mi s)
        = goDate y 2 (if (y % 4 = 0 ∧ y % 100 ≠ 0) ∨ y % 400 = 0 then 29 else 28) 23 0 0) ∧
    (∀ y m : Int, 1 ≤ m → m ≤ 12 → getYearMonthDays y m = daysInMonthSpec y m) := by
  refine ⟨by rfl, ?_, getYearMonthDays_spec⟩
  intro y d h mi s hd1 hd2 hh1 hh2 hm1 hm2 hs1 hs2 hle
  have hDif : getYearMonthDays y 2
      = if (y % 4 = 0 ∧ y % 100 ≠ 0) ∨ y % 400 = 0 then (29 : Int) else 28 := by
    unfold getYearMonthDays
    norm_num
  rw [← hDif] at hle ⊢
  exact febL_next_eq y d h mi s hd1 hd2 hh1 hh2 hm1 hm2 hs1 hs2 hle

/-- Witness for C7: February 2024 (leap) from Feb 1 fires at Feb 29 23:00:00,
and `getYearMonthDays` agrees with the reference month length there. -/
theorem claim_C7_witness :
    febL.next (goDate 2024 2 1 0 0 0) = goDate 2024 2 29 23 0 0 ∧
    getYearMonthDays 2024 2 = daysInMonthSpec 2024 2 := by
  constructor
  · have h := claim_C7.2.1 2024 1 0 0 0 (by decide) (by decide) (by decide) (by decide)
      (by decide) (by decide) (by decide) (by decide) (by decide)
    have h29 : (if ((2024:Int) % 4 = 0 ∧ (2024:Int) % 100 ≠ 0) ∨ (2024:Int) % 400 = 0
        then (29:Int) else 28) = 29 := by decide
    rw [h29] at h
    exact h
  · exact claim_C7.2.2 2024 2 (by decide) (by decide)

/-- C4 (amended): `parse` rejects invalid tokens — a range token errors when a
bound fails to resolve (non-numeric with no month/week alias) or resolves out
of the field's domain, or the range is reversed; a step token errors on a
non-numeric or out-of-domain start and on a non-numeric, zero or
out-of-domain increment; an enum token errors when any listed value fails to
resolve or is out of domain; a single second/minute/hour token errors when
non-numeric or above the literal bound 59 the code checks; a plain day token
errors when its parsed value is outside 1-31; single month and week tokens
error when non-numeric with no alias or numeric out of domain; week `NL` and
`N#M` tokens error on non-numeric or out-of-domain numeric parts; and every
accepted range, step or enum field is well-formed and in-bounds.  (As
`claim_C4_counterexample` shows, the original claim's final sentence is
false: non-numeric A-B bounds and enum values of the seconds/minutes/hours
fields are silently defaulted to 0, the non-numeric N of an NW day token is
silently accepted as 0, and single hour values 24-59 — out of the hour
domain but under the literal bound 59 — are accepted.) -/
theorem claim_C4_amended :
    (∀ (fname : String) (arr : List String),
      (parseBoundValue fname (arr.getD 0 "") = none ∨
       parseBoundValue fname (arr.getD 1 "") = none ∨
       (∃ st en, parseBoundValue fname (arr.getD 0 "") = some st ∧
          parseBoundValue fname (arr.getD 1 "") = some en ∧
          (st < (ranges fname).1 ∨ (ranges fname).2 < st ∨
           en < (ranges fname).1 ∨ (ranges fname).2 < en ∨ en < st))) →
      ∃ e, parserRangeField fname arr = .error e) ∧
    (∀ (fname : String) (arr : List String),
      ((arr.getD 0 "" ≠ "*" ∧
         ((parseUint8 (arr.getD 0 "")).2 = false ∨
          (parseUint8 (arr.getD 0 "")).1 < (ranges fname).1 ∨
          (ranges fname).2 < (parseUint8 (arr.getD 0 "")).1)) ∨
       (parseUint8 (arr.getD 1 "")).2 = false ∨
       (parseUint8 (arr.getD 1 "")).1 = 0 ∨
       (parseUint8 (arr.getD 1 "")).1 < (ranges fname).1 ∨
       (ranges fname).2 < (parseUint8 (arr.getD 1 "")).1) →
      ∃ e, parserIncreaseField fname arr = .error e) ∧
    (∀ (fname : String) (arr : List String),
      (∃ s ∈ arr, parseBoundValue fname s = none ∨
        (∃ v, parseBoundValue fname s = some v ∧
          (v < (ranges fname).1 ∨ (ranges fname).2 < v))) →
      ∃ e, parserEnumField fname arr = .error e) ∧
    (∀ (name str : String), str ≠ "*" → containsChar '-' str = false →
      containsChar '/' str = false → containsChar ',' str = false →
      ((parseUint8 str).2 = false ∨ 59 < (parseUint8 str).1) →
      ∃ e, parseSMH name str = .error e) ∧
    (∀ (s : String), s ≠ "*" → s ≠ "?" → containsChar '-' s = false →
      containsChar '/' s = false → containsChar ',' s = false → s ≠ "L" →
      s ≠ "LW" → containsChar 'W' s = false →
      ((parseUint8 s).1 < 1 ∨ 31 < (parseUint8 s).1) →
      ∃ e, parserDayField s = .error e) ∧
    (∀ (s : String), s ≠ "*" → containsChar '-' s = false →
      containsChar '/' s = false → containsChar ',' s = false →
      (((parseUint8 s).2 = false ∧ monsAlias s = none) ∨
       ((parseUint8 s).2 = true ∧
         ((parseUint8 s).1 < 1 ∨ 12 < (parseUint8 s).1))) →
      ∃ e, parserMonField s = .error e) ∧
    (∀ (arr : List String) (s : String), s ≠ "*" → s ≠ "?" →
      containsChar '-' s = false → containsChar '/' s = false →
      containsChar ',' s = false → containsChar 'L' s = false →
      containsChar '#' s = false →
      (((parseUint8 s).2 = false ∧ weekAlias s = none) ∨
       ((parseUint8 s).2 = true ∧ 6 < (parseUint8 s).1)) →
      ∃ e, parserWeekField arr s = .error e) ∧
    (∀ (arr : List String) (s : String), s ≠ "*" → s ≠ "?" →
      containsChar '-' s = false → containsChar '/' s = false →
      containsChar ',' s = false → containsChar 'L' s = true → s ≠ "L" →
      ((parseUint8 (takeBefore 'L' s)).2 = false ∨
       6 < (parseUint8 (takeBefore 'L' s)).1) →
      ∃ e, parserWeekField arr s = .error e) ∧
    (∀ (arr : List String) (s : String), s ≠ "*" → s ≠ "?" →
      containsChar '-' s = false → containsChar '/' s = false →
      containsChar ',' s = false → containsChar 'L' s = false →
      containsChar '#' s = true →
      ((parseUint8 (takeBefore '#' s)).2 = false ∨
       6 < (parseUint8 (takeBefore '#' s)).1 ∨
       (parseUint8 (takeAfter '#' s)).2 = false ∨
       (parseUint8 (takeAfter '#' s)).1 < 1 ∨
       4 < (parseUint8 (takeAfter '#' s)).1) →
      ∃ e, parserWeekField arr s = .error e) ∧
    (∀ (fname : String) (arr : List String) (f : field), parserRangeField fname arr = .ok f →
      f.isRange = true ∧ (ranges fname).1 ≤ f.start ∧ f.start ≤ f.endv ∧
        f.endv ≤ (ranges fname).2) ∧
    (∀ (fname : String) (arr : List String) (f : field), parserIncreaseField fname arr = .ok f →
      1 ≤ f.increment ∧ f.increment ≤ (ranges fname).2 ∧
        (ranges fname).1 ≤ f.start ∧ f.start ≤ (ranges fname).2) ∧
    (∀ (fname : String) (arr : List String) (f : field), parserEnumField fname arr = .ok f →
      ∀ v ∈ f.values, (ranges fname).1 ≤ v ∧ v ≤ (ranges fname).2) :=
  ⟨parserRangeField_err, parserIncreaseField_err, parserEnumField_err, parseSMH_err,
   parserDayField_err, parserMonField_err, parserWeekField_err_single,
   parserWeekField_err_NL, parserWeekField_err_hash,
   parserRangeField_ok, parserIncreaseField_ok, parserEnumField_ok⟩

/-- C4 counterexample: four expressions in which the claim requires `parse` to
reject an invalid token, yet `parse` accepts the expression —
`"x-5 * * * * ?"` (non-numeric seconds range bound, silently 0, giving the
range 0-5), `"x,5 * * * * ?"` (non-numeric seconds enum value, silently 0),
`"0 0 59 * * ?"` (single hour value 59, outside the hour domain 0-23 but
under the literal bound 59 the code checks), and `"0 0 0 xW * ?"`
(non-numeric N of an NW day token, its parse error discarded, stored as
`dayNW 0`). -/
theorem claim_C4_counterexample :
    trigger.parse "x-5 * * * * ?" = .ok xTrig ∧
    trigger.parse "x,5 * * * * ?" = .ok xEnumTrig ∧
    trigger.parse "0 0 59 * * ?" = .ok hour59Trig ∧
    trigger.parse "0 0 0 xW * ?" = .ok xwTrig :=
  ⟨rfl, rfl, rfl, rfl⟩

/-- Witness for the amended C4: every rejection clause exercised on a concrete
invalid token, and the well-formedness clauses on concrete accepted ones. -/
theorem claim_C4_witness :
    (∃ e, parserRangeField secField ["5", "3"] = .error e) ∧
    (∃ e, parserRangeField hourField ["0", "24"] = .error e) ∧
    (∃ e, parserRangeField monField ["XYZ", "5"] = .error e) ∧
    (∃ e, parserIncreaseField secField ["*", "0"] = .error e) ∧
    (∃ e, parserIncreaseField secField ["x", "5"] = .error e) ∧
    (∃ e, parserEnumField secField ["60", "5"] = .error e) ∧
    (∃ e, parserEnumField weekField ["XYZ"] = .error e) ∧
    (∃ e, parseSMH hourField "60" = .error e) ∧
    (∃ e, parseSMH secField "x" = .error e) ∧
    (∃ e, parserDayField "32" = .error e) ∧
    (∃ e, parserDayField "x" = .error e) ∧
    (∃ e, parserMonField "13" = .error e) ∧
    (∃ e, parserMonField "XYZ" = .error e) ∧
    (∃ e, parserWeekField ["0", "0", "0", "*", "*", "7"] "7" = .error e) ∧
    (∃ e, parserWeekField ["0", "0", "0", "*", "*", "XYZ"] "XYZ" = .error e) ∧
    (∃ e, parserWeekField ["0", "0", "0", "*", "*", "8L"] "8L" = .error e) ∧
    (∃ e, parserWeekField ["0", "0", "0", "*", "*", "0#9"] "0#9" = .error e) ∧
    (∃ e, parserWeekField ["0", "0", "0", "*", "*", "x#2"] "x#2" = .error e) ∧
    (({ name := secField, isRange := true, start := 3, endv := 5 } : field).isRange = true ∧
      (ranges secField).1 ≤ ({ name := secField, isRange := true, start := 3, endv := 5 } : field).start ∧
      ({ name := secField, isRange := true, start := 3, endv := 5 } : field).start ≤
        ({ name := secField, isRange := true, start := 3, endv := 5 } : field).endv ∧
      ({ name := secField, isRange := true, start := 3, endv := 5 } : field).endv ≤ (ranges secField).2) ∧
    (1 ≤ ({ name := dayField, start := 1, endv := 31, increment := 20, values := [1, 21] } : field).increment ∧
      ({ name := dayField, start := 1, endv := 31, increment := 20, values := [1, 21] } : field).increment ≤ (ranges dayField).2 ∧
      (ranges dayField).1 ≤ ({ name := dayField, start := 1, endv := 31, increment := 20, values := [1, 21] } : field).start ∧
      ({ name := dayField, start := 1, endv := 31, increment := 20, values := [1, 21] } : field).start ≤ (ranges dayField).2) ∧
    ((ranges secField).1 ≤ (3 : Int) ∧ (3 : Int) ≤ (ranges secField).2) :=
  ⟨claim_C4_amended.1 secField ["5", "3"]
     (Or.inr (Or.inr ⟨5, 3, rfl, rfl, by decide⟩)),
   claim_C4_amended.1 hourField ["0", "24"]
     (Or.inr (Or.inr ⟨0, 24, rfl, rfl, by decide⟩)),
   claim_C4_amended.1 monField ["XYZ", "5"] (Or.inl rfl),
   claim_C4_amended.2.1 secField ["*", "0"] (Or.inr (Or.inr (Or.inl (by decide)))),
   claim_C4_amended.2.1 secField ["x", "5"] (Or.inl ⟨by decide, Or.inl (by decide)⟩),
   claim_C4_amended.2.2.1 secField ["60", "5"] ⟨"60", by simp, Or.inr ⟨60, rfl, by decide⟩⟩,
   claim_C4_amended.2.2.1 weekField ["XYZ"] ⟨"XYZ", by simp, Or.inl rfl⟩,
   claim_C4_amended.2.2.2.1 hourField "60" (by decide) rfl rfl rfl (Or.inr (by decide)),
   claim_C4_amended.2.2.2.1 secField "x" (by decide) rfl rfl rfl (Or.inl rfl),
   claim_C4_amended.2.2.2.2.1 "32" (by decide) (by decide) rfl rfl rfl (by decide) (by decide) rfl
     (Or.inr (by decide)),
   claim_C4_amended.2.2.2.2.1 "x" (by decide) (by decide) rfl rfl rfl (by decide) (by decide) rfl
     (Or.inl (by decide)),
   claim_C4_amended.2.2.2.2.2.1 "13" (by decide) rfl rfl rfl (Or.inr ⟨rfl, Or.inr (by decide)⟩),
   claim_C4_amended.2.2.2.2.2.1 "XYZ" (by decide) rfl rfl rfl (Or.inl ⟨rfl, rfl⟩),
   claim_C4_amended.2.2.2.2.2.2.1 ["0", "0", "0", "*", "*", "7"] "7" (by decide) (by decide)
     rfl rfl rfl rfl rfl (Or.inr ⟨rfl, by decide⟩),
   claim_C4_amended.2.2.2.2.2.2.1 ["0", "0", "0", "*", "*", "XYZ"] "XYZ" (by decide) (by decide)
     rfl rfl rfl rfl rfl (Or.inl ⟨rfl, rfl⟩),
   claim_C4_amended.2.2.2.2.2.2.2.1 ["0", "0", "0", "*", "*", "8L"] "8L" (by decide) (by decide)
     rfl rfl rfl rfl (by decide) (Or.inr (by decide)),
   claim_C4_amended.2.2.2.2.2.2.2.2.1 ["0", "0", "0", "*", "*", "0#9"] "0#9" (by decide) (by decide)
     rfl rfl rfl rfl rfl (Or.inr (Or.inr (Or.inr (Or.inr (by decide))))),
   claim_C4_amended.2.2.2.2.2.2.2.2.1 ["0", "0", "0", "*", "*", "x#2"] "x#2" (by decide) (by decide)
     rfl rfl rfl rfl rfl (Or.inl rfl),
   claim_C4_amended.2.2.2.2.2.2.2.2.2.1 secField ["3", "5"]
     { name := secField, isRange := true, start := 3, endv := 5 } rfl,
   claim_C4_amended.2.2.2.2.2.2.2.2.2.2.1 dayField ["*", "20"]
     { name := dayField, start := 1, endv := 31, increment := 20, values := [1, 21] } rfl,
   claim_C4_amended.2.2.2.2.2.2.2.2.2.2.2 secField ["3"]
     { name := secField, values := [3] } rfl 3 (by decide)⟩

/-- C5: for every expression whose day-of-month token is neither `*` nor `?`
and whose day-of-week token is neither `*` nor `?`, `parse` returns an error
— at most one of the two fields may be specific, enforced at parse time. -/
theorem claim_C5 (s : String)
    (h3 : (splitOnChar ' ' s).getD 3 "" ≠ "*") (h3q : (splitOnChar ' ' s).getD 3 "" ≠ "?")
    (h5 : (splitOnChar ' ' s).getD 5 "" ≠ "*") (h5q : (splitOnChar ' ' s).getD 5 "" ≠ "?") :
    ∃ e, trigger.parse s = .error e := by
  unfold trigger.parse
  dsimp only
  split
  · exact ⟨_, rfl⟩
  · cases hsec : parseSMH secField ((splitOnChar ' ' s).getD 0 "") with
    | error e => exact ⟨e, rfl⟩
    | ok fsec =>
      cases hmin : parseSMH minField ((splitOnChar ' ' s).getD 1 "") with
      | error e => exact ⟨e, rfl⟩
      | ok fmin =>
        cases hhour : parseSMH hourField ((splitOnChar ' ' s).getD 2 "") with
        | error e => exact ⟨e, rfl⟩
        | ok fhour =>
          cases hday : parserDayField ((splitOnChar ' ' s).getD 3 "") with
          | error e => exact ⟨e, rfl⟩
          | ok fday =>
            cases hmon : parserMonField ((splitOnChar ' ' s).getD 4 "") with
            | error e => exact ⟨e, rfl⟩
            | ok fmon =>
              have hweek : parserWeekField (splitOnChar ' ' s) ((splitOnChar ' ' s).getD 5 "")
                  = .error "day field must be * or ? when the week is specific" := by
                unfold parserWeekField
                rw [if_neg (by rintro (h | h) <;> [exact h5 h; exact h5q h])]
                rw [if_pos ⟨h3, h3q⟩]
              rw [hweek]
              exact ⟨_, rfl⟩

/-- Witness for C5: `"0 0 0 5 * 1"` has both a specific day and a specific
week token and is rejected. -/
theorem claim_C5_witness : ∃ e, trigger.parse "0 0 0 5 * 1" = .error e :=
  claim_C5 "0 0 0 5 * 1" (by decide) (by decide) (by decide) (by decide)

/-- C6: whenever `AddJob` returns an error, the returned id is 0 and the
scheduler state — job map, job slice and id counter — is exactly as before;
no job is registered on a parse or validation failure. -/
theorem claim_C6 (c : Scheduler) (cronExpression : String) (now : Int)
    (herr : (c.AddJob cronExpression now).2.2 ≠ none) :
    (c.AddJob cronExpression now).1 = c ∧ (c.AddJob cronExpression now).2.1 = 0 := by
  unfold Scheduler.AddJob at herr ⊢
  cases h : newJob cronExpression now with
  | error e => exact ⟨rfl, rfl⟩
  | ok j0 =>
    rw [h] at herr
    exact absurd rfl herr

/-- Witness for C6 on the empty scheduler and the unparsable expression
`"bad"`. -/
theorem claim_C6_witness :
    (Scheduler.New.AddJob "bad" 0).1 = Scheduler.New ∧ (Scheduler.New.AddJob "bad" 0).2.1 = 0 :=
  claim_C6 Scheduler.New "bad" 0 (by decide)

/-- C1 (code bug): evaluation of the code at the failing input.  For the
parsed trigger of `"0 0 0 31 * ?"` and now = 2025-04-30 23:00:00, the
weekday-matching day scan finds no day, `nextDay` becomes 0, and
`trigger.next` returns 2025-03-31 00:00:00 — an instant strictly before `now`
and different from the zero-time sentinel, contradicting the claim that the
result is always ≥ `now` or the sentinel. -/
theorem claim_C1_code_eval :
    trigger.parse "0 0 0 31 * ?" = .ok t31 ∧
    t31.next (goDate 2025 4 30 23 0 0) = goDate 2025 3 31 0 0 0 ∧
    goDate 2025 3 31 0 0 0 < goDate 2025 4 30 23 0 0 ∧
    goDate 2025 3 31 0 0 0 ≠ zeroTime := by
  refine ⟨rfl, rfl, by decide, by decide⟩

/-- C2 (code bug): evaluation of the code at the failing input.  For the
parsed trigger of `"0 0 0 31 * ?"`, `next` at 2025-03-31 00:00:00 returns that
same (non-sentinel) instant, and re-feeding the result plus one second yields
2025-03-31 00:00:00 again — not a strictly later instant, contradicting the
claimed no-repeat property. -/
theorem claim_C2_code_eval :
    trigger.parse "0 0 0 31 * ?" = .ok t31 ∧
    t31.next (goDate 2025 3 31 0 0 0) = goDate 2025 3 31 0 0 0 ∧
    goDate 2025 3 31 0 0 0 ≠ zeroTime ∧
    t31.next (goDate 2025 3 31 0 0 0 + 1) = goDate 2025 3 31 0 0 0 ∧
    ¬ (goDate 2025 3 31 0 0 0 < t31.next (goDate 2025 3 31 0 0 0 + 1)) := by
  refine ⟨rfl, rfl, by decide, rfl, ?_⟩
  intro hlt
  have he : t31.next (goDate 2025 3 31 0 0 0 + 1) = goDate 2025 3 31 0 0 0 := rfl
  rw [he] at hlt
  exact lt_irrefl _ hlt

/-- C3: `trigger.next` terminates with carry recursion bounded by the depth
guard `maxDeep` — the resolver is the fuelled `nextAux` with exactly
`maxDeep + 1` working invocations, an exceeded guard (fuel 0) returns the
zero-time sentinel rather than recursing further, and that sentinel lies
before any `now` after the zero time; the trigger of `"0 15 10 29W 2 ?"`
exhausts the guard concretely at 2032-02-27 10:15:01 and yields the
sentinel. -/
theorem claim_C3_depth_guard :
    (∀ (tr : trigger) (now : Int), tr.next now = tr.nextAux (maxDeep + 1) now) ∧
    (∀ (tr : trigger) (now : Int), tr.nextAux 0 now = zeroTime) ∧
    (∀ now : Int, 0 < now → zeroTime < now) ∧
    trigger.parse "0 15 10 29W 2 ?" = .ok w29 ∧
    w29.next (goDate 2032 2 27 10 15 1) = zeroTime ∧
    zeroTime < goDate 2032 2 27 10 15 1 := by
  exact ⟨fun tr now => rfl, fun tr now => rfl, fun now h => h, rfl, rfl, by decide⟩

/-- Witness for C3 at the trigger `t31` and now = 5. -/
theorem claim_C3_witness :
    trigger.next t31 5 = trigger.nextAux t31 (maxDeep + 1) 5 ∧
    trigger.nextAux t31 0 5 = zeroTime ∧ zeroTime < (5 : Int) :=
  ⟨claim_C3_depth_guard.1 t31 5, claim_C3_depth_guard.2.1 t31 5,
   claim_C3_depth_guard.2.2.1 5 (by decide)⟩

/-- C8 counterexample: with the trigger of `"0 0 0 31 * ?"`, two `job.next`
calls at non-decreasing instants (2025-04-03, then 2025-05-01) move the cached
fire time from 2025-05-01 00:00:00 down to 2025-04-30 00:00:00 — the cache is
not monotonically non-decreasing as claimed. -/
theorem claim_C8_counterexample :
    (job.next { id := 1, t := t31, nextTime := none } (goDate 2025 4 3 0 0 0)).2
        = goDate 2025 4 31 0 0 0 ∧
    (job.next { id := 1, t := t31, nextTime := none } (goDate 2025 4 3 0 0 0)).1.nextTime
        = some (goDate 2025 4 31 0 0 0) ∧
    goDate 2025 4 3 0 0 0 ≤ goDate 2025 5 1 0 0 0 ∧
    (job.next (job.next { id := 1, t := t31, nextTime := none } (goDate 2025 4 3 0 0 0)).1
        (goDate 2025 5 1 0 0 0)).2 = goDate 2025 5 0 0 0 0 ∧
    (job.next (job.next { id := 1, t := t31, nextTime := none } (goDate 2025 4 3 0 0 0)).1
        (goDate 2025 5 1 0 0 0)).1.nextTime = some (goDate 2025 5 0 0 0 0) ∧
    goDate 2025 5 0 0 0 0 < goDate 2025 4 31 0 0 0 := by
  refine ⟨rfl, rfl, by decide, rfl, rfl, by decide⟩

/-- C8 (amended): `job.next` returns the cached fire time unchanged when the
cache is non-nil and strictly after `t`, and otherwise recomputes through the
trigger and stores the result; consequently the cache is non-decreasing
provided each recomputed value is no earlier than the previous cache — which
the trigger does not guarantee (see `claim_C8_counterexample`). -/
theorem claim_C8_amended :
    (∀ (j : job) (t nt : Int), j.nextTime = some nt → t < nt → j.next t = (j, nt)) ∧
    (∀ (j : job) (t nt : Int), j.nextTime = some nt → nt ≤ t →
        j.next t = ({ j with nextTime := some (j.t.next t) }, j.t.next t)) ∧
    (∀ (j : job) (t : Int), j.nextTime = none →
        j.next t = ({ j with nextTime := some (j.t.next t) }, j.t.next t)) ∧
    (∀ (j : job) (t nt : Int), j.nextTime = some nt → nt ≤ j.t.next t →
        nt ≤ (j.next t).2) := by
  refine ⟨?_, ?_, ?_, ?_⟩
  · intro j t nt hnt hlt
    unfold job.next
    rw [hnt]
    dsimp only
    rw [if_pos hlt]
  · intro j t nt hnt hge
    unfold job.next
    rw [hnt]
    dsimp only
    rw [if_neg (by omega)]
  · intro j t hnone
    unfold job.next
    rw [hnone]
  · intro j t nt hnt hle
    unfold job.next
    rw [hnt]
    dsimp only
    by_cases hlt : t < nt
    · rw [if_pos hlt]
    · rw [if_neg hlt]
      exact hle

/-- Witness for the amended C8: a cached time 10 strictly after t = 5 is
returned unchanged. -/
theorem claim_C8_witness :
    job.next { id := 1, t := t31, nextTime := some 10 } 5
      = ({ id := 1, t := t31, nextTime := some 10 }, 10) :=
  claim_C8_amended.1 { id := 1, t := t31, nextTime := some 10 } 5 10 rfl (by decide)

/-- C9: when neither day field is Computed and no in-range/in-set day at or
after the start day falls on the resolved weekday, the day helpers return 0;
day 0 is normalised by the calendar into the last day of the preceding month;
and concretely `"0 0 0 31 * ?"` at 2025-04-30 23:00:00 produces exactly
`goDate 2025 4 0 0 0 0`, whose month is March and day 31 — no carry to the
following month happens in this branch. -/
theorem claim_C9 :
    (∀ start endv year m day w : Int,
      (∀ i, start ≤ i → i ≤ endv → day ≤ i → goWeekday (goDate year m i 0 0 0) ≠ w) →
      getRangeDayNextValue start endv year m day w = 0) ∧
    (∀ (values : List Int) (year m day w : Int),
      (∀ i ∈ values, day ≤ i → goWeekday (goDate year m i 0 0 0) ≠ w) →
      getIncreaseDayNextValue values year m day w = 0) ∧
    (∀ y m h mi s : Int, goDate y m 0 h mi s = goDate y m 1 h mi s - 86400) ∧
    trigger.parse "0 0 0 31 * ?" = .ok t31 ∧
    t31.next (goDate 2025 4 30 23 0 0) = goDate 2025 4 0 0 0 0 ∧
    goMonth (goDate 2025 4 0 0 0 0) = 3 ∧ goDay (goDate 2025 4 0 0 0 0) = 31 := by
  refine ⟨getRangeDayNextValue_zero, getIncreaseDayNextValue_zero, ?_, rfl, rfl, rfl, rfl⟩
  intro y m h mi s
  have := goDate_day_linear y m 0 h mi s
  omega

/-- Witness for C9: the day scan for day 31 of April 2025 starting at day 30
with weekday 3 (April 31 normalises to Thursday, May 1) returns 0. -/
theorem claim_C9_witness : getRangeDayNextValue 31 31 2025 4 30 3 = 0 :=
  claim_C9.1 31 31 2025 4 30 3 (by
    intro i h1 h2 h3
    have hi : i = 31 := le_antisymm h2 h1
    subst hi
    decide)
